import Mathlib

/-!
# meguca: identity tokens and the spam-score / captcha gate

A shallow embedding of `auth/auth.go` (the `Token` text codec) and of
`db/antispam.go` (the spam-score buffer, its synchronisation with the
database and the captcha gate), followed by theorems about them.

Conventions of the embedding:

* a Go `byte` is a `Fin 256`, a `[]byte` is a `List Byte`;
* a `time.Time` is an `Int` (nanoseconds on one time line), a
  `time.Duration` is an `Int` kept in the `int64` range by `wrapInt64`; a
  duration that is an argument of a statement reaches the database as an
  interval of whole microseconds (`intervalOf`);
* a Go `map` and a table with a unique key are association lists without
  duplicate keys (`AList`);
* an operation is evaluated at one instant `now`, which is both the result of
  `time.Now()` and the value of SQL `now()`;
* what the database and the captcha backend answer is read from an explicit
  environment (`Env`);
* a Go `string` is a `List Byte` as well; of an `http.Request` the embedding
  keeps `Header.Get` and `RemoteAddr`; the functions of `strings` and `net`
  that `GetIP` calls are embedded from the Go library, except the IPv6 parser
  of `net.ParseIP`, which is a parameter.
-/

namespace Meguca

/-! ## encoding/base64, as used by `base64.RawURLEncoding` -/

/-- A Go `byte`. -/
abbrev Byte := Fin 256

/-- The alphabet of `base64.URLEncoding` (`encodeURL` in encoding/base64). -/
def encodeURL : List Byte :=
  "ABCDEFGHIJKLMNOPQRSTUVWXYZabcdefghijklmnopqrstuvwxyz0123456789-_".toList.map
    (fun c => Fin.ofNat c.toNat)

/-- The table lookup `enc.encode[i]`. -/
def encodeChar (i : Nat) : Byte := encodeURL.getD i 0

/-- The table `enc.decodeMap`: every entry is `0xff` except that the entry of
the `i`-th alphabet character is `i`. -/
def decodeMap (c : Byte) : Nat :=
  let i := encodeURL.indexOf c
  if i < 64 then i else 0xff

/-- `Encoding.Encode` of `base64.RawURLEncoding` (no padding character):
every 3 source bytes give 4 characters, a remainder of 2 bytes gives 3
characters and a remainder of 1 byte gives 2 characters. -/
def Encode : List Byte → List Byte
  | a :: b :: c :: rest =>
    let val := a.val <<< 16 ||| b.val <<< 8 ||| c.val
    encodeChar (val >>> 18 &&& 0x3F) :: encodeChar (val >>> 12 &&& 0x3F) ::
      encodeChar (val >>> 6 &&& 0x3F) :: encodeChar (val &&& 0x3F) :: Encode rest
  | [a, b] =>
    let val := a.val <<< 16 ||| b.val <<< 8
    [encodeChar (val >>> 18 &&& 0x3F), encodeChar (val >>> 12 &&& 0x3F),
      encodeChar (val >>> 6 &&& 0x3F)]
  | [a] =>
    let val := a.val <<< 16
    [encodeChar (val >>> 18 &&& 0x3F), encodeChar (val >>> 12 &&& 0x3F)]
  | [] => []

/-- The conversion `byte(x)` of an unsigned integer. -/
def toByte (x : Nat) : Byte := Fin.ofNat x

/-- The end of `decodeQuantum`: the `dlen` sextets collected in `dbuf` are
assembled into `val` and give `dlen - 1` bytes. The encoding is not strict, so
the bits of `val` that are left over are dropped without a check. -/
def quantumBytes (dbuf : List Nat) : List Byte :=
  let val := dbuf.getD 0 0 <<< 18 ||| dbuf.getD 1 0 <<< 12 ||| dbuf.getD 2 0 <<< 6 |||
    dbuf.getD 3 0
  match dbuf.length with
  | 4 => [toByte (val >>> 16), toByte (val >>> 8), toByte (val >>> 0)]
  | 3 => [toByte (val >>> 16), toByte (val >>> 8)]
  | 2 => [toByte (val >>> 16)]
  | _ => []

/-- The error of `Encoding.Decode`. -/
inductive CorruptInputError where
  | corrupt
  deriving DecidableEq, Repr

/-- The loop of `Encoding.Decode` over `decodeQuantum`, for
`base64.RawURLEncoding` (`padChar` is `NoPadding`, `strict` is false), read one
source byte at a time. `dbuf` holds the sextets of the quantum being read (its
length is the `j` of `decodeQuantum`) and `dst` the bytes written so far.

* At the end of the source (`len(src) == si`): with `j == 0` the quantum is
  empty and the result is what was written; with `j == 1` the input is corrupt;
  otherwise `dlen = j` and the quantum is written out.
* A byte `c` whose entry `decodeMap[c]` is not `0xff` is stored in `dbuf[j]`;
  when that was the fourth sextet the quantum is written out and the next
  quantum starts.
* `\n` and `\r` are skipped (`j--; continue`).
* Any other byte is corrupt input: there is no padding character to accept.

The shortcuts of `Decode` for 8 and 4 alphabet characters at once
(`assemble64`, `assemble32`) write the same bytes as `decodeQuantum` and give
way to it on any other byte, so they do not show here. The result is the bytes
written (Go's `n` is their number) and the error. -/
def decodeLoop : List Byte → List Nat → List Byte → List Byte × Option CorruptInputError
  | [], dbuf, dst =>
    match dbuf.length with
    | 0 => (dst, none)
    | 1 => (dst, some .corrupt)
    | _ => (dst ++ quantumBytes dbuf, none)
  | c :: src, dbuf, dst =>
    let out := decodeMap c
    if out ≠ 0xff then
      if dbuf.length + 1 = 4 then decodeLoop src [] (dst ++ quantumBytes (dbuf ++ [out]))
      else decodeLoop src (dbuf ++ [out]) dst
    else if c = 10 ∨ c = 13 then decodeLoop src dbuf dst
    else (dst, some .corrupt)

/-- `Encoding.Decode` of `base64.RawURLEncoding`. -/
def Decode (src : List Byte) : List Byte × Option CorruptInputError :=
  decodeLoop src [] []

/-! ## auth/auth.go -/

/-- The errors of the two packages. `other` stands for an error of the
database driver or of the captcha backend. -/
inductive Error where
  | ErrInvalidToken
  | StatusError (code : Nat) (msg : String)
  | ErrNoRows
  | ErrInvalidSolution
  | ErrInvalidCaptcha
  | other (id : Nat)
  deriving DecidableEq, Repr

/-- The type `Token`: `[64]byte`. -/
abbrev Token := { l : List Byte // l.length = 64 }

/-- `Token.MarshalText`: the 86-byte buffer is filled by `Encode` and returned
with a nil error. -/
def MarshalText (t : Token) : List Byte × Option Error :=
  let buf := List.replicate 86 (0 : Byte)
  let enc := Encode t.val
  (enc ++ buf.drop enc.length, none)

/-- `Token.UnmarshalText`: the token decoded from `buf`, or `ErrInvalidToken`.
(On an error Go leaves the receiver partly overwritten; the embedding returns
no token then.) -/
def UnmarshalText (buf : List Byte) : Except Error Token :=
  if buf.length ≠ 86 then .error .ErrInvalidToken
  else
    let r := Decode buf
    if h : r.1.length ≠ 64 ∨ r.2 ≠ none then .error .ErrInvalidToken
    else .ok ⟨r.1, by simpa using (not_or.mp h).1⟩

/-- The URL-safe base64 alphabet: `A-Z`, `a-z`, `0-9`, `-`, `_`. -/
def isURLSafe (c : Byte) : Prop :=
  (65 ≤ c.val ∧ c.val ≤ 90) ∨ (97 ≤ c.val ∧ c.val ≤ 122) ∨ (48 ≤ c.val ∧ c.val ≤ 57) ∨
    c.val = 45 ∨ c.val = 95

instance (c : Byte) : Decidable (isURLSafe c) := by unfold isURLSafe; infer_instance

/-! ## auth/auth.go: requests, `ExtractToken` and `GetIP` -/

/-- A Go string constant of ASCII characters as its bytes. -/
def bytes (s : String) : List Byte := s.toList.map (fun c => Fin.ofNat c.toNat)

/-- What the package reads of an `http.Request`: `Header` is `r.Header.Get`
(the empty string for a header that is not set) and `RemoteAddr` the field of
that name. -/
structure Request where
  Header : String → List Byte
  RemoteAddr : List Byte

/-- `strings.TrimPrefix`: `s` without the leading `p` when `s` starts with
`p`, and `s` otherwise. -/
def TrimPrefix (s p : List Byte) : List Byte :=
  if p.isPrefixOf s then s.drop p.length else s

/-- `ExtractToken`: extract user auth token from request. Any error of
`UnmarshalText` is replaced by a `StatusError` with code 403. -/
def ExtractToken (r : Request) : Except Error Token :=
  match UnmarshalText (TrimPrefix (r.Header "Authorization") (bytes "Bearer ")) with
  | .ok user => .ok user
  | .error _ => .error (.StatusError 403 "invalid authentication key")

/-- The scan of `strings.LastIndexByte`, from the left: `acc` is the index of
the last `c` seen so far and `i` the index of the head of the list. -/
def lastIndexFrom (c : Byte) : List Byte → Nat → Int → Int
  | [], _, acc => acc
  | x :: xs, i, acc => lastIndexFrom c xs (i + 1) (if x = c then (i : Int) else acc)

/-- `strings.LastIndexByte`: the index of the last `c` in `s`, or `-1`. -/
def LastIndexByte (s : List Byte) (c : Byte) : Int := lastIndexFrom c s 0 (-1)

/-- `strings.IndexByte`: the index of the first `c` in `s`, or `-1`. -/
def IndexByte (s : List Byte) (c : Byte) : Int :=
  if s.indexOf c < s.length then (s.indexOf c : Int) else -1

/-- The UTF-8 encodings of the runes for which `unicode.IsSpace` holds: tab,
line feed, vertical tab, form feed, carriage return, space, U+0085, U+00A0,
U+1680, U+2000 to U+200A, U+2028, U+2029, U+202F, U+205F and U+3000. -/
def spaceRunes : List (List Byte) :=
  [[0x09], [0x0A], [0x0B], [0x0C], [0x0D], [0x20], [0xC2, 0x85], [0xC2, 0xA0],
    [0xE1, 0x9A, 0x80], [0xE2, 0x80, 0x80], [0xE2, 0x80, 0x81], [0xE2, 0x80, 0x82],
    [0xE2, 0x80, 0x83], [0xE2, 0x80, 0x84], [0xE2, 0x80, 0x85], [0xE2, 0x80, 0x86],
    [0xE2, 0x80, 0x87], [0xE2, 0x80, 0x88], [0xE2, 0x80, 0x89], [0xE2, 0x80, 0x8A],
    [0xE2, 0x80, 0xA8], [0xE2, 0x80, 0xA9], [0xE2, 0x80, 0xAF], [0xE2, 0x81, 0x9F],
    [0xE3, 0x80, 0x80]]

/-- Removes from the front of `s` every leading sequence that is in `runes`,
one per unit of `fuel`; each removal shortens `s`, so a `fuel` of the length of
`s` is never used up. -/
def trimStart (runes : List (List Byte)) : Nat → List Byte → List Byte
  | 0, s => s
  | fuel + 1, s =>
    match runes.find? (fun r => r.isPrefixOf s) with
    | some r => trimStart runes fuel (s.drop r.length)
    | none => s

/-- `strings.TrimSpace`: `s` without the white space runes at its start and
at its end. A rune at the start of a string is a white space rune exactly when
the string starts with one of `spaceRunes`, and likewise at the end. -/
def TrimSpace (s : List Byte) : List Byte :=
  let t := trimStart spaceRunes s.length s
  (trimStart (spaceRunes.map List.reverse) t.length t.reverse).reverse

/-- `net.SplitHostPort`: splits `host:port`, `[host]:port` into host and
port, or reports why the address has no such form. -/
def SplitHostPort (hostport : List Byte) : Except String (List Byte × List Byte) :=
  let missingPort := "missing port in address"
  let tooManyColons := "too many colons in address"
  let i := LastIndexByte hostport 58
  if i < 0 then .error missingPort
  else
    let bracket : Except String (List Byte × Nat × Nat) :=
      if hostport.head? = some 91 then
        let close := IndexByte hostport 93
        if close < 0 then .error "missing ']' in address"
        else if close + 1 = hostport.length then .error missingPort
        else if close + 1 = i then .ok ((hostport.take close.toNat).drop 1, 1, close.toNat + 1)
        else if hostport.get? (close.toNat + 1) = some 58 then .error tooManyColons
        else .error missingPort
      else
        let host := hostport.take i.toNat
        if IndexByte host 58 ≥ 0 then .error tooManyColons else .ok (host, 0, 0)
    match bracket with
    | .error e => .error e
    | .ok (host, j, k) =>
      if IndexByte (hostport.drop j) 91 ≥ 0 then .error "unexpected '[' in address"
      else if IndexByte (hostport.drop k) 93 ≥ 0 then .error "unexpected ']' in address"
      else .ok (host, hostport.drop (i.toNat + 1))

/-- A `net.IP`, which is a `[]byte`; the nil address is `none`. -/
abbrev IP := List Byte

/-- The loop of `dtoi` (package net): decimal to integer. `n` is the number
read so far and `i` the number of digits read. A number of `0xFFFFFF` or more
is too big. -/
def dtoiLoop : List Byte → Nat → Nat → Nat × Nat × Bool
  | [], n, i => if i = 0 then (0, 0, false) else (n, i, true)
  | c :: s, n, i =>
    if 48 ≤ c.val ∧ c.val ≤ 57 then
      let n1 := n * 10 + (c.val - 48)
      if n1 ≥ 0xFFFFFF then (0xFFFFFF, i, false) else dtoiLoop s n1 (i + 1)
    else if i = 0 then (0, 0, false) else (n, i, true)

/-- `dtoi`: the number at the start of `s`, the count of its digits, and
whether there is one. -/
def dtoi (s : List Byte) : Nat × Nat × Bool := dtoiLoop s 0 0

/-- `net.IPv4`: the 16-byte form of the address `a.b.c.d`. -/
def IPv4 (a b c d : Byte) : IP := [0, 0, 0, 0, 0, 0, 0, 0, 0, 0, 0xff, 0xff, a, b, c, d]

/-- The loop of `parseIPv4`: `todo` octets are still to be read, `p` holds
the octets read. Every octet but the first follows a dot, is a decimal number
of at most `0xFF`, and has no leading zero unless it is `0` (the rule of
Go 1.17 and later; no statement below depends on it). -/
def parseIPv4Loop : Nat → List Byte → List Byte → Option (List Byte)
  | 0, s, p => if s.length ≠ 0 then none else some p
  | todo + 1, s, p =>
    if s.length = 0 then none
    else
      let afterDot : Option (List Byte) :=
        if p.length > 0 then (if s.head? ≠ some 46 then none else some (s.drop 1)) else some s
      match afterDot with
      | none => none
      | some s1 =>
        match dtoi s1 with
        | (n, c, ok) =>
          if !ok ∨ n > 0xFF then none
          else if c > 1 ∧ s1.head? = some 48 then none
          else parseIPv4Loop todo (s1.drop c) (p ++ [Fin.ofNat n])

/-- `parseIPv4`: the address of a dotted decimal text, or nil. -/
def parseIPv4 (s : List Byte) : Option IP :=
  match parseIPv4Loop 4 s [] with
  | some [a, b, c, d] => some (IPv4 a b c d)
  | _ => none

/-- `net.ParseIP`: a text whose first `.` comes before any `:` is parsed as
IPv4, one whose first `:` comes before any `.` as IPv6, and a text with
neither is no address. The IPv6 parser is a parameter. -/
def ParseIP (parseIPv6 : List Byte → Option IP) (s : List Byte) : Option IP :=
  match s.find? (fun c => c = 46 ∨ c = 58) with
  | some c => if c = 46 then parseIPv4 s else parseIPv6 s
  | none => none

/-- The error `fmt.Errorf("invalid IP: %s", s)` of `GetIP`. -/
inductive IPError where
  | invalidIP (s : List Byte)
  deriving DecidableEq, Repr

/-- `GetIP`: extracts the IP of a request, honouring reverse proxies, if set.
`ReverseProxied` is `config.Server.Server.ReverseProxied`. -/
def GetIP (parseIPv6 : List Byte → Option IP) (ReverseProxied : Bool) (r : Request) :
    Option IP × Option IPError :=
  let s0 : List Byte :=
    if ReverseProxied then
      let h := r.Header "X-Forwarded-For"
      if h ≠ [] then
        let i := LastIndexByte h 44
        let h1 := if i ≠ -1 then h.drop (i + 1).toNat else h
        TrimSpace h1
      else []
    else []
  let s1 := if s0 = [] then r.RemoteAddr else s0
  let s2 :=
    match SplitHostPort s1 with
    | .ok (split, _) => split
    | .error _ => s1
  match ParseIP parseIPv6 s2 with
  | some ip => (some ip, none)
  | none => (none, some (.invalidIP s2))

/-! ## db/antispam.go -/

/-- A `time.Time`: nanoseconds on one time line. -/
abbrev Time := Int

/-- A `time.Duration`: an `int64` count of nanoseconds. -/
abbrev Duration := Int

/-- The value an `int64` holds after an operation whose exact result is `x`
(two's complement wrap-around). -/
def wrapInt64 (x : Int) : Int := (x + 2 ^ 63) % 2 ^ 64 - 2 ^ 63

/-- The constant `time.Millisecond`. -/
def Millisecond : Duration := 1000000

/-- The constant `time.Minute`. -/
def Minute : Duration := 60000000000

/-- Amount of score, after exceeding which, a captcha solution is requested. -/
def spamDetectionThreshold : Duration := Minute

/-- The SQL value `interval '3 hours'`. -/
def threeHours : Duration := 10800000000000

/-- `Time.Add`. -/
def Time.Add (t : Time) (d : Duration) : Time := t + d

/-- `Time.After`. -/
def Time.After (t u : Time) : Bool := decide (u < t)

/-- The type of `spamScoreBuffer`: `map[auth.Token]time.Duration`. -/
abbrev Buffer := AList (fun _ : Token => Duration)

/-- A table `(auth_key unique, expires)`. -/
abbrev Table := AList (fun _ : Token => Time)

/-- The two tables of the database that the package uses. -/
structure DB where
  spam_scores : Table
  last_solved_captchas : Table

/-- The state the package works on: the buffer (guarded by `spamMu`) and the
database. -/
structure State where
  spamScoreBuffer : Buffer
  db : DB

/-- The type `auth.Captcha`, of which the package reads two fields. -/
structure Captcha where
  CaptchaID : List Byte
  Solution : List Byte

/-- What the surroundings answer during one operation: the configuration
flag, the clock, the outcome of the `k`-th `tx.Exec` of a transaction and of
its commit, the driver error of the two queries (`none`: the query runs), and
the verdict of the captcha backend. -/
structure Env where
  captcha : Bool
  now : Time
  execErr : Nat → Option Error
  commitErr : Option Error
  solvedQueryErr : Option Error
  scoreQueryErr : Option Error
  checkCaptcha : Captcha → Option Error

/-- Modelled from the spec: `InTransaction`, which is not among the sources. The
body runs on the database; when the body fails or the commit fails, the
transaction is rolled back, the database is as before and the error is
returned; otherwise the writes of the body are in the database. -/
def InTransaction (env : Env) (fn : DB → Except Error DB) (db : DB) : DB × Option Error :=
  match fn db with
  | .error e => (db, some e)
  | .ok db1 =>
    match env.commitErr with
    | some e => (db, some e)
    | none => (db1, none)

/-- The interval the statement of `flushSpamScores` receives for the argument
`buffered`: the driver sends a `time.Duration` as an interval of
`int64(buffered) / 1000` microseconds (Go's division, which truncates toward
zero), so what is left of a microsecond is dropped. The result is in
nanoseconds again. -/
def intervalOf (buffered : Duration) : Duration := Int.tdiv buffered 1000 * 1000

/-- The statement of `flushSpamScores`: insert `(user, now() + $2)`, and on a
conflict set `expires` to
`(case when expires < now() then now() else expires end) + $2`, where `$2` is
the interval sent for `buffered`. -/
def upsertSpamScore (now : Time) (user : Token) (buffered : Duration) (t : Table) : Table :=
  match t.lookup user with
  | none => t.insert user (now + intervalOf buffered)
  | some expires =>
    t.insert user ((if expires < now then now else expires) + intervalOf buffered)

/-- The loop of the transaction of `flushSpamScores` over the entries of the
buffer; `k` counts the statements executed so far. The first statement that
fails ends the loop with its error. (Go visits the entries of a map in no fixed
order; the keys are distinct, so the rows written are the same in any order.) -/
def flushLoop (env : Env) : List (Sigma fun _ : Token => Duration) → Nat → DB → Except Error DB
  | [], _, db => .ok db
  | ⟨user, buffered⟩ :: rest, k, db =>
    match env.execErr k with
    | some e => .error e
    | none =>
      flushLoop env rest (k + 1)
        { db with spam_scores := upsertSpamScore env.now user buffered db.spam_scores }

/-- `flushSpamScores`: flush spam scores from buffer to DB. -/
def flushSpamScores (env : Env) (s : State) : DB × Option Error :=
  InTransaction env (fun db => flushLoop env s.spamScoreBuffer.entries 0 db) s.db

/-- The loop `for user := range spamScoreBuffer { delete(spamScoreBuffer, user) }`. -/
def deleteAll (b : Buffer) : Buffer :=
  b.keys.foldl (fun acc user => acc.erase user) b

/-- `syncSpamScores`: sync cache and DB spam scores. -/
def syncSpamScores (env : Env) (s : State) : State × Option Error :=
  if s.spamScoreBuffer.entries.length = 0 then (s, none)
  else
    let r := flushSpamScores env s
    ({ spamScoreBuffer := deleteAll s.spamScoreBuffer, db := r.1 }, r.2)

/-- The map read `spamScoreBuffer[user]`: the zero value when there is no
entry. -/
def Buffer.get (b : Buffer) (user : Token) : Duration := (b.lookup user).getD 0

/-- `IncrementSpamScore`: `increment` is a `uint` (64 bits), converted to a
`time.Duration` and multiplied by `time.Millisecond`; the sum is stored under
`user`. -/
def IncrementSpamScore (env : Env) (s : State) (user : Token) (increment : Nat) : State :=
  if !env.captcha then s
  else
    { s with
      spamScoreBuffer :=
        s.spamScoreBuffer.insert user
          (wrapInt64 (s.spamScoreBuffer.get user +
            wrapInt64 (wrapInt64 (increment % 2 ^ 64) * Millisecond))) }

/-- `SolvedCaptchaRecently`: returns, if user has solved a captcha within the
last 3 hours. -/
def SolvedCaptchaRecently (env : Env) (s : State) (user : Token) : Bool × Option Error :=
  if !env.captcha then (true, none)
  else
    match env.solvedQueryErr with
    | some e => (false, some e)
    | none =>
      match s.db.last_solved_captchas.lookup user with
      | some expires => (decide (expires > env.now), none)
      | none => (false, none)

/-- The query of `getSpamScore`:
`select expires from spam_scores where auth_key = $1 and expires > now()`,
scanned into `score`. -/
def queryScore (env : Env) (s : State) (user : Token) : Except Error Time :=
  match env.scoreQueryErr with
  | some e => .error e
  | none =>
    match s.db.spam_scores.lookup user with
    | some expires => if expires > env.now then .ok expires else .error .ErrNoRows
    | none => .error .ErrNoRows

/-- `getSpamScore`: merge cached and DB value and return current score. The
result of `score.Add(spamScoreBuffer[user])` is not assigned, so the score
returned is the one before the call of `Add`. -/
def getSpamScore (env : Env) (s : State) (user : Token) : Except Error Time :=
  let now := env.now
  match queryScore env s user with
  | .ok score =>
    let _unused := score.Add (s.spamScoreBuffer.get user)
    .ok score
  | .error .ErrNoRows =>
    let score := now
    let _unused := score.Add (s.spamScoreBuffer.get user)
    .ok score
  | .error e => .error e

/-- `NeedCaptcha`: returns, if the user needs a captcha to proceed with usage
of server resources. -/
def NeedCaptcha (env : Env) (s : State) (user : Token) : Bool × Option Error :=
  if !env.captcha then (false, none)
  else
    match SolvedCaptchaRecently env s user with
    | (_, some e) => (false, some e)
    | (false, none) => (true, none)
    | (true, none) =>
      match getSpamScore env s user with
      | .error e => (false, some e)
      | .ok score => (score.After (env.now.Add spamDetectionThreshold), none)

/-- `AssertNotSpammer`: check if user is spammer. -/
def AssertNotSpammer (env : Env) (s : State) (user : Token) : Option Error :=
  match getSpamScore env s user with
  | .error e => some e
  | .ok _ => none

/-- The function `recordValidCaptcha` runs in its transaction: the first
statement sets the row of `user` in `last_solved_captchas` to
`now() + interval '3 hours'` (insert, or update on a conflict), the second
deletes the row of `user` from `spam_scores`; a statement that fails ends the
function with its error. -/
def recordValidCaptchaTx (env : Env) (user : Token) (db : DB) : Except Error DB :=
  match env.execErr 0 with
  | some e => .error e
  | none =>
    let db1 :=
      { db with
        last_solved_captchas := db.last_solved_captchas.insert user (env.now + threeHours) }
    match env.execErr 1 with
    | some e => .error e
    | none => .ok { db1 with spam_scores := db1.spam_scores.erase user }

/-- `recordValidCaptcha`: the entry of `user` is deleted from the buffer, then
the transaction runs and its error is returned. -/
def recordValidCaptcha (env : Env) (s : State) (user : Token) : State × Option Error :=
  let buffer := s.spamScoreBuffer.erase user
  let r := InTransaction env (recordValidCaptchaTx env user) s.db
  ({ spamScoreBuffer := buffer, db := r.1 }, r.2)

/-- `ValidateCaptcha`: validate the captcha with the captcha backend. -/
def ValidateCaptcha (env : Env) (s : State) (req : Captcha) (user : Token) :
    State × Option Error :=
  if !env.captcha then (s, none)
  else
    match env.checkCaptcha req with
    | none => recordValidCaptcha env s user
    | some .ErrInvalidSolution => (s, some .ErrInvalidCaptcha)
    | some e => (s, some e)

/-! ## Auxiliary definitions of the statements -/

/-- Number of alphabet characters of a text. -/
def countSafe (src : List Byte) : Nat := src.countP (fun c => decide (isURLSafe c))

/-- The expiry the statement of `flushSpamScores` writes for a row whose
expiry was `old` (`none`: there was no row). -/
def upsertValue (now : Time) (old : Option Time) (buffered : Duration) : Time :=
  match old with
  | none => now + intervalOf buffered
  | some expires => max expires now + intervalOf buffered

/-- A token of 64 bytes 0. -/
def tokenA : Token := ⟨List.replicate 64 0, by decide⟩

/-- A token of 64 bytes 1. -/
def tokenB : Token := ⟨List.replicate 64 1, by decide⟩

/-- Surroundings in which nothing fails: the captcha feature is on, it is
instant 1000, and the backend accepts every solution. -/
def envOk : Env :=
  { captcha := true, now := 1000, execErr := fun _ => none, commitErr := none,
    solvedQueryErr := none, scoreQueryErr := none, checkCaptcha := fun _ => none }

/-- As `envOk`, but every statement of a transaction fails. -/
def envTxFail : Env := { envOk with execErr := fun _ => some (.other 1) }

/-- As `envOk`, but the query of `SolvedCaptchaRecently` fails. -/
def envQueryFail : Env := { envOk with solvedQueryErr := some (.other 2) }

/-- A state with 100 ms buffered for `tokenA` and an empty database. -/
def stateA : State :=
  { spamScoreBuffer := AList.singleton tokenA 100000000,
    db := { spam_scores := ∅, last_solved_captchas := ∅ } }

/-- A state with 100 ms buffered for `tokenA`, which has a row that expires at
instant 5000, and 50 ms buffered for `tokenB`, which has no row. -/
def stateAB : State :=
  { spamScoreBuffer := (AList.singleton tokenA 100000000).insert tokenB 50000000,
    db := { spam_scores := AList.singleton tokenA 5000, last_solved_captchas := ∅ } }

/-- A state in which `tokenA` has solved a captcha recently and has a score
that expires two minutes after instant 1000. -/
def stateSolved : State :=
  { spamScoreBuffer := ∅,
    db := { spam_scores := AList.singleton tokenA 120000001000,
            last_solved_captchas := AList.singleton tokenA 5000 } }

/-- A state in which `tokenA` has solved a captcha recently, has no row in
`spam_scores` and has 10 minutes buffered. -/
def stateSolvedBuffered : State :=
  { spamScoreBuffer := AList.singleton tokenA 600000000000,
    db := { spam_scores := ∅, last_solved_captchas := AList.singleton tokenA 5000 } }

/-- A state with an empty buffer and an empty database. -/
def stateEmpty : State :=
  { spamScoreBuffer := ∅, db := { spam_scores := ∅, last_solved_captchas := ∅ } }

/-- A state with 448384 ns buffered for `tokenA` and an empty database. -/
def stateMicro : State :=
  { spamScoreBuffer := AList.singleton tokenA 448384,
    db := { spam_scores := ∅, last_solved_captchas := ∅ } }

/-- As `envOk`, but the captcha feature is off and the backend rejects every
solution. -/
def envOff : Env :=
  { envOk with captcha := false, checkCaptcha := fun _ => some .ErrInvalidSolution }

/-- As `envOk`, but the backend fails with an error of its own. -/
def envBackendDown : Env := { envOk with checkCaptcha := fun _ => some (.other 3) }

/-- A captcha request. -/
def captchaReq : Captcha := { CaptchaID := [], Solution := [] }

/-- The request `r` with the header `name` set to `v`. -/
def Request.withHeader (r : Request) (name : String) (v : List Byte) : Request :=
  { r with Header := fun k => if k = name then v else r.Header k }

/-- A request without headers, from the address `1.2.3.4:5555`. -/
def requestA : Request := { Header := fun _ => [], RemoteAddr := bytes "1.2.3.4:5555" }

/-- A request without headers, from the address `5.6.7.8:1`. -/
def requestB : Request := { Header := fun _ => [], RemoteAddr := bytes "5.6.7.8:1" }

/-- The text `GetIP` takes from a forwarded-for header: what follows its last
comma, or all of it when it has no comma. -/
def afterLastComma (h : List Byte) : List Byte :=
  if LastIndexByte h 44 ≠ -1 then h.drop (LastIndexByte h 44 + 1).toNat else h

/-- The text `GetIP` parses for the candidate `s`: the host when `s` is a
host:port pair, and `s` otherwise. -/
def stripPort (s : List Byte) : List Byte :=
  match SplitHostPort s with
  | .ok (split, _) => split
  | .error _ => s

/-- The result of `GetIP` for the candidate `s`: the address parsed from `s`
without its port, or the error that names the text that did not parse. -/
def resolveAddr (parseIPv6 : List Byte → Option IP) (s : List Byte) :
    Option IP × Option IPError :=
  match ParseIP parseIPv6 (stripPort s) with
  | some ip => (some ip, none)
  | none => (none, some (.invalidIP (stripPort s)))

/-- The text `MarshalText` gives back for a text of alphabet characters whose
length is 2 more than a multiple of 4: the same characters, but the last one
with the four low bits of its sextet cleared. -/
def canonText : List Byte → List Byte
  | c0 :: c1 :: c2 :: c3 :: c4 :: rest => c0 :: c1 :: c2 :: c3 :: canonText (c4 :: rest)
  | [c0, c1] => [c0, encodeChar (decodeMap c1 / 16 * 16)]
  | s => s

/-- The text of 86 characters `A`, which is the text of `tokenA`. -/
def textA : List Byte := List.replicate 86 65

/-- The text of 85 characters `A` and one `B`. -/
def textB : List Byte := List.replicate 85 65 ++ [66]

/-! ## Lemmas on the base64 tables -/

theorem decodeMap_encodeChar : ∀ i : Fin 64, decodeMap (encodeChar i.val) = i.val := by
  decide

theorem encodeChar_isURLSafe : ∀ i : Fin 64, isURLSafe (encodeChar i.val) := by
  decide

set_option maxRecDepth 100000 in
theorem decodeMap_ne_iff : ∀ c : Byte, decodeMap c ≠ 0xff ↔ isURLSafe c := by
  decide

theorem shiftLeft_or_eq_add (x y n : Nat) (h : y < 2 ^ n) : x <<< n ||| y = x * 2 ^ n + y := by
  rw [Nat.shiftLeft_eq, Nat.mul_comm, ← Nat.mul_add_lt_is_or h]

theorem val3_eq (a b c : Nat) (hb : b < 256) (hc : c < 256) :
    a <<< 16 ||| b <<< 8 ||| c = a * 65536 + b * 256 + c := by
  have h1 : a <<< 16 ||| b <<< 8 = a * 65536 + b * 256 := by
    have := shiftLeft_or_eq_add a (b <<< 8) 16 (by rw [Nat.shiftLeft_eq]; omega)
    rw [this, Nat.shiftLeft_eq]; norm_num
  have h2 : a * 65536 + b * 256 = (a * 256 + b) <<< 8 := by
    rw [Nat.shiftLeft_eq]; omega
  rw [h1, h2, shiftLeft_or_eq_add _ c 8 (by omega)]; omega

theorem val4_eq (a b c d : Nat) (hb : b < 64) (hc : c < 64) (hd : d < 64) :
    a <<< 18 ||| b <<< 12 ||| c <<< 6 ||| d = a * 262144 + b * 4096 + c * 64 + d := by
  have h1 : a <<< 18 ||| b <<< 12 = a * 262144 + b * 4096 := by
    have := shiftLeft_or_eq_add a (b <<< 12) 18 (by rw [Nat.shiftLeft_eq]; omega)
    rw [this, Nat.shiftLeft_eq]; norm_num
  have h2 : a * 262144 + b * 4096 = (a * 64 + b) <<< 12 := by
    rw [Nat.shiftLeft_eq]; omega
  have h3 : (a * 64 + b) <<< 12 ||| c <<< 6 = (a * 64 + b) * 4096 + c * 64 := by
    have := shiftLeft_or_eq_add (a * 64 + b) (c <<< 6) 12 (by rw [Nat.shiftLeft_eq]; omega)
    rw [this, Nat.shiftLeft_eq]; norm_num
  have h4 : (a * 64 + b) * 4096 + c * 64 = (a * 4096 + b * 64 + c) <<< 6 := by
    rw [Nat.shiftLeft_eq]; omega
  rw [h1, h2, h3, h4, shiftLeft_or_eq_add _ d 6 (by omega)]; omega

theorem shr_and_63 (v n : Nat) : v >>> n &&& 0x3F = v / 2 ^ n % 64 := by
  rw [Nat.shiftRight_eq_div_pow]
  exact Nat.and_pow_two_sub_one_eq_mod _ 6

theorem and_63 (v : Nat) : v &&& 0x3F = v % 64 :=
  Nat.and_pow_two_sub_one_eq_mod _ 6

/-- reading one alphabet character -/
theorem decodeLoop_sextet (i : Nat) (hi : i < 64) (src : List Byte) (dbuf : List Nat)
    (dst : List Byte) :
    decodeLoop (encodeChar i :: src) dbuf dst =
      if dbuf.length + 1 = 4 then decodeLoop src [] (dst ++ quantumBytes (dbuf ++ [i]))
      else decodeLoop src (dbuf ++ [i]) dst := by
  have h := decodeMap_encodeChar ⟨i, hi⟩
  simp only at h
  have hne : i ≠ 0xff := by omega
  rw [decodeLoop]
  simp only [h]
  rw [if_pos hne]

theorem quantumBytes_four (a b c : Byte) :
    quantumBytes
      [(a.val * 65536 + b.val * 256 + c.val) / 2 ^ 18 % 64,
       (a.val * 65536 + b.val * 256 + c.val) / 2 ^ 12 % 64,
       (a.val * 65536 + b.val * 256 + c.val) / 2 ^ 6 % 64,
       (a.val * 65536 + b.val * 256 + c.val) % 64] = [a, b, c] := by
  have ha := a.isLt
  have hb := b.isLt
  have hc := c.isLt
  simp only [quantumBytes, List.getD_cons_zero, List.getD_cons_succ, List.length_cons,
    List.length_nil]
  rw [val4_eq _ _ _ _ (Nat.mod_lt _ (by norm_num)) (Nat.mod_lt _ (by norm_num))
    (Nat.mod_lt _ (by norm_num))]
  simp only [Nat.shiftRight_eq_div_pow, toByte]
  refine congrArg₂ _ ?_ (congrArg₂ _ ?_ (congrArg₂ _ ?_ rfl)) <;>
    · apply Fin.ext
      simp only [Fin.ofNat, Fin.val_mk]
      omega



theorem quantumBytes_three (a b : Byte) :
    quantumBytes
      [(a.val * 65536 + b.val * 256) / 2 ^ 18 % 64,
       (a.val * 65536 + b.val * 256) / 2 ^ 12 % 64,
       (a.val * 65536 + b.val * 256) / 2 ^ 6 % 64] = [a, b] := by
  have ha := a.isLt
  have hb := b.isLt
  simp only [quantumBytes, List.getD_cons_zero, List.getD_cons_succ, List.length_cons,
    List.length_nil, List.getD_nil]
  rw [val4_eq _ _ _ _ (Nat.mod_lt _ (by norm_num)) (Nat.mod_lt _ (by norm_num))
    (by norm_num)]
  simp only [Nat.shiftRight_eq_div_pow, toByte]
  refine congrArg₂ _ ?_ (congrArg₂ _ ?_ rfl) <;>
    · apply Fin.ext
      simp only [Fin.ofNat, Fin.val_mk]
      omega

theorem quantumBytes_two (a : Byte) :
    quantumBytes [(a.val * 65536) / 2 ^ 18 % 64, (a.val * 65536) / 2 ^ 12 % 64] = [a] := by
  have ha := a.isLt
  simp only [quantumBytes, List.getD_cons_zero, List.getD_cons_succ, List.length_cons,
    List.length_nil, List.getD_nil]
  rw [val4_eq _ _ _ _ (Nat.mod_lt _ (by norm_num)) (by norm_num) (by norm_num)]
  simp only [Nat.shiftRight_eq_div_pow, toByte]
  refine congrArg₂ _ ?_ rfl
  apply Fin.ext
  simp only [Fin.ofNat, Fin.val_mk]
  omega

theorem Encode_cons3 (a b c : Byte) (rest : List Byte) :
    Encode (a :: b :: c :: rest) =
      encodeChar ((a.val * 65536 + b.val * 256 + c.val) / 2 ^ 18 % 64) ::
      encodeChar ((a.val * 65536 + b.val * 256 + c.val) / 2 ^ 12 % 64) ::
      encodeChar ((a.val * 65536 + b.val * 256 + c.val) / 2 ^ 6 % 64) ::
      encodeChar ((a.val * 65536 + b.val * 256 + c.val) % 64) :: Encode rest := by
  rw [Encode]
  simp only [shr_and_63, and_63, Nat.shiftRight_eq_div_pow, val3_eq _ _ _ b.isLt c.isLt]

theorem Encode_two (a b : Byte) :
    Encode [a, b] =
      [encodeChar ((a.val * 65536 + b.val * 256) / 2 ^ 18 % 64),
       encodeChar ((a.val * 65536 + b.val * 256) / 2 ^ 12 % 64),
       encodeChar ((a.val * 65536 + b.val * 256) / 2 ^ 6 % 64)] := by
  rw [Encode]
  have h : a.val <<< 16 ||| b.val <<< 8 = a.val * 65536 + b.val * 256 := by
    have := val3_eq a.val b.val 0 b.isLt (by norm_num)
    simpa using this
  simp only [shr_and_63, Nat.shiftRight_eq_div_pow, and_63, h]

theorem Encode_one (a : Byte) :
    Encode [a] =
      [encodeChar ((a.val * 65536) / 2 ^ 18 % 64), encodeChar ((a.val * 65536) / 2 ^ 12 % 64)] := by
  rw [Encode]
  simp only [shr_and_63, Nat.shiftRight_eq_div_pow, and_63, Nat.shiftLeft_eq]

/-- Decoding what `Encode` wrote gives the source bytes back. -/
theorem decodeLoop_Encode (l : List Byte) :
    ∀ dst, decodeLoop (Encode l) [] dst = (dst ++ l, none) := by
  induction l using Encode.induct with
  | case1 a b c rest ih =>
    intro dst
    rw [Encode_cons3]
    rw [decodeLoop_sextet _ (Nat.mod_lt _ (by norm_num)), if_neg (by simp),
      decodeLoop_sextet _ (Nat.mod_lt _ (by norm_num)), if_neg (by simp),
      decodeLoop_sextet _ (Nat.mod_lt _ (by norm_num)), if_neg (by simp),
      decodeLoop_sextet _ (Nat.mod_lt _ (by norm_num)), if_pos (by simp)]
    simp only [List.nil_append, List.cons_append]
    rw [quantumBytes_four, ih]
    simp
  | case2 a b =>
    intro dst
    rw [Encode_two]
    rw [decodeLoop_sextet _ (Nat.mod_lt _ (by norm_num)), if_neg (by simp),
      decodeLoop_sextet _ (Nat.mod_lt _ (by norm_num)), if_neg (by simp),
      decodeLoop_sextet _ (Nat.mod_lt _ (by norm_num)), if_neg (by simp)]
    simp only [List.nil_append, List.cons_append, decodeLoop, List.length_cons, List.length_nil]
    rw [quantumBytes_three]
  | case3 a =>
    intro dst
    rw [Encode_one]
    rw [decodeLoop_sextet _ (Nat.mod_lt _ (by norm_num)), if_neg (by simp),
      decodeLoop_sextet _ (Nat.mod_lt _ (by norm_num)), if_neg (by simp)]
    simp only [List.nil_append, List.cons_append, decodeLoop, List.length_cons, List.length_nil]
    rw [quantumBytes_two]
  | case4 =>
    intro dst
    simp [Encode, decodeLoop]

/-- The number of characters `Encode` writes. -/
theorem Encode_length (l : List Byte) :
    (Encode l).length = l.length / 3 * 4 + (if l.length % 3 = 0 then 0 else l.length % 3 + 1) := by
  induction l using Encode.induct with
  | case1 a b c rest ih =>
    rw [Encode_cons3]
    simp only [List.length_cons, ih]
    split_ifs <;> omega
  | case2 a b => rw [Encode_two]; simp
  | case3 a => rw [Encode_one]; simp
  | case4 => rfl

theorem quantumBytes_length (dbuf : List Nat) (h : dbuf.length ≤ 4) :
    (quantumBytes dbuf).length = dbuf.length - 1 := by
  unfold quantumBytes
  split <;> simp_all
  omega

theorem countSafe_cons_safe (c : Byte) (src : List Byte) (h : isURLSafe c) :
    countSafe (c :: src) = countSafe src + 1 := by
  simp [countSafe, List.countP_cons, h]

theorem countSafe_cons_not (c : Byte) (src : List Byte) (h : ¬ isURLSafe c) :
    countSafe (c :: src) = countSafe src := by
  simp [countSafe, List.countP_cons, h]

/-- When the decoder reports no error, the source holds only alphabet
characters and line breaks, and the number of bytes written is fixed by the
number of alphabet characters. -/
theorem decodeLoop_ok (src : List Byte) :
    ∀ (dbuf : List Nat) (dst out : List Byte), dbuf.length < 4 →
      decodeLoop src dbuf dst = (out, none) →
      (∀ c ∈ src, isURLSafe c ∨ c = 10 ∨ c = 13) ∧
      (dbuf.length + countSafe src) % 4 ≠ 1 ∧
      out.length = dst.length + (dbuf.length + countSafe src) / 4 * 3 +
        ((dbuf.length + countSafe src) % 4 - 1) := by
  induction src with
  | nil =>
    intro dbuf dst out hlen h
    have hq := quantumBytes_length dbuf (by omega)
    rw [decodeLoop] at h
    refine ⟨by simp, ?_⟩
    simp only [countSafe, List.countP_nil, Nat.add_zero]
    split at h
    · simp_all
    · simp at h
    · rename_i h0 h1
      simp only [Prod.mk.injEq, and_true] at h
      subst h
      rw [List.length_append, hq]
      have h0n : dbuf.length ≠ 0 := h0
      have h1n : dbuf.length ≠ 1 := h1
      omega
  | cons c src ih =>
    intro dbuf dst out hlen h
    rw [decodeLoop] at h
    by_cases hs : isURLSafe c
    · have hne := (decodeMap_ne_iff c).mpr hs
      rw [if_pos hne] at h
      rw [countSafe_cons_safe c src hs]
      by_cases h4 : dbuf.length + 1 = 4
      · rw [if_pos h4] at h
        obtain ⟨h1, h2, h3⟩ := ih [] _ out (by simp) h
        rw [List.length_append, quantumBytes_length _ (by simp; omega)] at h3
        simp only [List.length_nil, List.length_append, List.length_singleton] at h2 h3
        refine ⟨?_, ?_, ?_⟩
        · intro x hx
          rcases List.mem_cons.mp hx with rfl | hx
          · exact Or.inl hs
          · exact h1 x hx
        · omega
        · omega
      · rw [if_neg h4] at h
        obtain ⟨h1, h2, h3⟩ := ih (dbuf ++ [decodeMap c]) dst out (by simp; omega) h
        simp only [List.length_append, List.length_singleton] at h2 h3
        refine ⟨?_, ?_, ?_⟩
        · intro x hx
          rcases List.mem_cons.mp hx with rfl | hx
          · exact Or.inl hs
          · exact h1 x hx
        · omega
        · omega
    · have hne : ¬ decodeMap c ≠ 0xff := fun hh => hs ((decodeMap_ne_iff c).mp hh)
      rw [if_neg hne] at h
      rw [countSafe_cons_not c src hs]
      by_cases hnl : c = 10 ∨ c = 13
      · rw [if_pos hnl] at h
        obtain ⟨h1, h2, h3⟩ := ih dbuf dst out hlen h
        refine ⟨?_, h2, h3⟩
        intro x hx
        rcases List.mem_cons.mp hx with rfl | hx
        · exact Or.inr hnl
        · exact h1 x hx
      · rw [if_neg hnl] at h
        simp at h

/-- On a source of alphabet characters only, whose quantum at the end does not
have exactly one sextet, the decoder reports no error. -/
theorem decodeLoop_safe (src : List Byte) :
    ∀ (dbuf : List Nat) (dst : List Byte), dbuf.length < 4 →
      (∀ c ∈ src, isURLSafe c) → (dbuf.length + src.length) % 4 ≠ 1 →
      (decodeLoop src dbuf dst).2 = none := by
  induction src with
  | nil =>
    intro dbuf dst hlen _ hm
    rw [decodeLoop]
    simp only [List.length_nil, Nat.add_zero] at hm
    split
    · rfl
    · rename_i h1; omega
    · rfl
  | cons c src ih =>
    intro dbuf dst hlen hs hm
    have hc := hs c (List.mem_cons_self _ _)
    have hrest : ∀ x ∈ src, isURLSafe x := fun x hx => hs x (List.mem_cons_of_mem _ hx)
    rw [decodeLoop]
    rw [if_pos ((decodeMap_ne_iff c).mpr hc)]
    simp only [List.length_cons] at hm
    by_cases h4 : dbuf.length + 1 = 4
    · rw [if_pos h4]
      exact ih [] _ (by simp) hrest (by simp; omega)
    · rw [if_neg h4]
      exact ih _ _ (by simp; omega) hrest (by simp; omega)

theorem countSafe_le (src : List Byte) : countSafe src ≤ src.length := List.countP_le_length _

theorem countSafe_eq_length (src : List Byte) (h : ∀ c ∈ src, isURLSafe c) :
    countSafe src = src.length := by
  unfold countSafe
  rw [List.countP_eq_length]
  intro c hc
  simpa using h c hc

theorem all_safe_of_countSafe (src : List Byte) (h : countSafe src = src.length) :
    ∀ c ∈ src, isURLSafe c := by
  unfold countSafe at h
  rw [List.countP_eq_length] at h
  intro c hc
  simpa using h c hc

theorem Encode_safe (l : List Byte) : ∀ c ∈ Encode l, isURLSafe c := by
  induction l using Encode.induct with
  | case1 a b c rest ih =>
    rw [Encode_cons3]
    intro x hx
    simp only [List.mem_cons] at hx
    rcases hx with rfl | rfl | rfl | rfl | hx
    · exact encodeChar_isURLSafe ⟨_, Nat.mod_lt _ (by norm_num)⟩
    · exact encodeChar_isURLSafe ⟨_, Nat.mod_lt _ (by norm_num)⟩
    · exact encodeChar_isURLSafe ⟨_, Nat.mod_lt _ (by norm_num)⟩
    · exact encodeChar_isURLSafe ⟨_, Nat.mod_lt _ (by norm_num)⟩
    · exact ih x hx
  | case2 a b =>
    rw [Encode_two]
    intro x hx
    simp only [List.mem_cons, List.mem_singleton, List.not_mem_nil, or_false] at hx
    rcases hx with rfl | rfl | rfl
    · exact encodeChar_isURLSafe ⟨_, Nat.mod_lt _ (by norm_num)⟩
    · exact encodeChar_isURLSafe ⟨_, Nat.mod_lt _ (by norm_num)⟩
    · exact encodeChar_isURLSafe ⟨_, Nat.mod_lt _ (by norm_num)⟩
  | case3 a =>
    rw [Encode_one]
    intro x hx
    simp only [List.mem_cons, List.mem_singleton, List.not_mem_nil, or_false] at hx
    rcases hx with rfl | rfl
    · exact encodeChar_isURLSafe ⟨_, Nat.mod_lt _ (by norm_num)⟩
    · exact encodeChar_isURLSafe ⟨_, Nat.mod_lt _ (by norm_num)⟩
  | case4 => simp [Encode]

/-- The text of a token is what `Encode` writes: it fills the 86 bytes. -/
theorem MarshalText_fst (T : Token) : (MarshalText T).1 = Encode T.val := by
  have h : (Encode T.val).length = 86 := by rw [Encode_length, T.property]; rfl
  simp [MarshalText, h]

/-- What `UnmarshalText` returns on a text that decodes to 64 bytes. -/
theorem UnmarshalText_of_Decode (buf : List Byte) (T : Token) (hlen : buf.length = 86)
    (h : Decode buf = (T.val, none)) : UnmarshalText buf = .ok T := by
  unfold UnmarshalText
  rw [if_neg (by simp [hlen])]
  simp only
  rw [dif_neg (by simp [h, T.property])]
  congr 1
  apply Subtype.ext
  simp [h]

/-- The texts `UnmarshalText` accepts. -/
theorem UnmarshalText_ok_iff (s : List Byte) :
    (∃ T, UnmarshalText s = .ok T) ↔ s.length = 86 ∧ ∀ c ∈ s, isURLSafe c := by
  constructor
  · rintro ⟨T, hT⟩
    unfold UnmarshalText at hT
    by_cases hlen : s.length = 86
    · refine ⟨hlen, ?_⟩
      rw [if_neg (by simp [hlen])] at hT
      simp only at hT
      by_cases hd : (Decode s).1.length ≠ 64 ∨ (Decode s).2 ≠ none
      · rw [dif_pos hd] at hT
        cases hT
      · obtain ⟨h64, hnone⟩ := not_or.mp hd
        have h64 : (Decode s).1.length = 64 := by simpa using h64
        have hnone : (Decode s).2 = none := by simpa using hnone
        have hdec : decodeLoop s [] [] = ((Decode s).1, none) := by
          rw [← hnone]; rfl
        obtain ⟨_, h2, h3⟩ := decodeLoop_ok s [] [] _ (by simp) hdec
        simp only [List.length_nil, Nat.zero_add] at h2 h3
        have hle := countSafe_le s
        exact all_safe_of_countSafe s (by omega)
    · rw [if_pos hlen] at hT
      cases hT
  · rintro ⟨hlen, hs⟩
    have hnone : (Decode s).2 = none :=
      decodeLoop_safe s [] [] (by simp) hs (by simp [hlen])
    have hdec : decodeLoop s [] [] = ((Decode s).1, none) := by
      rw [← hnone]; rfl
    obtain ⟨_, _, h3⟩ := decodeLoop_ok s [] [] _ (by simp) hdec
    rw [countSafe_eq_length s hs] at h3
    simp only [List.length_nil, Nat.zero_add, hlen] at h3
    exact ⟨⟨(Decode s).1, h3⟩, UnmarshalText_of_Decode s _ hlen (by rw [← hnone])⟩

/-- The only error of `UnmarshalText`. -/
theorem UnmarshalText_error (s : List Byte) (e : Error) (h : UnmarshalText s = .error e) :
    e = .ErrInvalidToken := by
  unfold UnmarshalText at h
  by_cases hlen : s.length ≠ 86
  · rw [if_pos hlen] at h
    cases h
    rfl
  · rw [if_neg hlen] at h
    by_cases hd : (Decode s).1.length ≠ 64 ∨ (Decode s).2 ≠ none
    · simp only [dif_pos hd] at h
      cases h
      rfl
    · simp only [dif_neg hd] at h
      cases h

/-! ## Lemmas on the buffer and the transactions -/

theorem foldl_erase_eq_empty (keys : List Token) :
    ∀ b : Buffer, (∀ k, k ∈ b → k ∈ keys) → keys.foldl (fun acc user => acc.erase user) b = ∅ := by
  induction keys with
  | nil =>
    intro b hb
    apply AList.ext
    have hk : b.keys = [] := by
      apply List.eq_nil_iff_forall_not_mem.mpr
      intro k hk
      simpa using hb k (AList.mem_keys.mpr hk)
    simpa [AList.keys, List.keys] using hk
  | cons k ks ih =>
    intro b hb
    rw [List.foldl_cons]
    apply ih
    intro x hx
    rw [AList.mem_erase] at hx
    have := hb x hx.2
    rcases List.mem_cons.mp this with h | h
    · exact absurd h hx.1
    · exact h

/-- The loop that deletes every key leaves the empty map. -/
theorem deleteAll_eq_empty (b : Buffer) : deleteAll b = ∅ :=
  foldl_erase_eq_empty b.keys b (fun _ hk => AList.mem_keys.mp hk)

/-- A transaction that returns an error leaves the database as it was. -/
theorem InTransaction_error (env : Env) (fn : DB → Except Error DB) (db : DB) (e : Error)
    (h : (InTransaction env fn db).2 = some e) : (InTransaction env fn db).1 = db := by
  unfold InTransaction at h ⊢
  cases hfn : fn db with
  | error e1 => simp
  | ok db1 =>
    rw [hfn] at h
    cases hc : env.commitErr with
    | some e2 => simp
    | none => simp [hc] at h

/-- A transaction that returns no error has run its body to the end and
holds the writes of the body. -/
theorem InTransaction_ok (env : Env) (fn : DB → Except Error DB) (db : DB)
    (h : (InTransaction env fn db).2 = none) : fn db = .ok (InTransaction env fn db).1 := by
  unfold InTransaction at h ⊢
  cases hfn : fn db with
  | error e1 => simp [hfn] at h
  | ok db1 =>
    rw [hfn] at h
    cases hc : env.commitErr with
    | some e2 => simp [hc] at h
    | none => simp

/-- A duration of whole microseconds is sent as it is. -/
theorem intervalOf_of_dvd (d : Duration) (h : (1000 : Int) ∣ d) : intervalOf d = d :=
  Int.tdiv_mul_cancel h

theorem lookup_upsertSpamScore_self (now : Time) (user : Token) (d : Duration) (t : Table) :
    (upsertSpamScore now user d t).lookup user = some (upsertValue now (t.lookup user) d) := by
  unfold upsertSpamScore upsertValue
  cases h : t.lookup user with
  | none => simp [AList.lookup_insert]
  | some e =>
    simp only [AList.lookup_insert, Option.some.injEq]
    split_ifs with hlt
    · rw [max_eq_right (le_of_lt hlt)]
    · rw [max_eq_left (not_lt.mp hlt)]

theorem lookup_upsertSpamScore_ne (now : Time) (user other : Token) (d : Duration) (t : Table)
    (h : other ≠ user) : (upsertSpamScore now user d t).lookup other = t.lookup other := by
  unfold upsertSpamScore
  cases t.lookup user <;> simp [AList.lookup_insert_ne h]

/-- What the loop of `flushSpamScores` has written when it ends without an
error. -/
theorem flushLoop_ok (env : Env) (entries : List (Sigma fun _ : Token => Duration)) :
    ∀ (k : Nat) (db db1 : DB), entries.NodupKeys → flushLoop env entries k db = .ok db1 →
      db1.last_solved_captchas = db.last_solved_captchas ∧
      (∀ user d, Sigma.mk user d ∈ entries →
        db1.spam_scores.lookup user =
          some (upsertValue env.now (db.spam_scores.lookup user) d)) ∧
      (∀ user, user ∉ entries.keys → db1.spam_scores.lookup user = db.spam_scores.lookup user) := by
  induction entries with
  | nil =>
    intro k db db1 _ h
    simp only [flushLoop, Except.ok.injEq] at h
    subst h
    simp
  | cons hd tl ih =>
    intro k db db1 hnd h
    obtain ⟨u, b⟩ := hd
    rw [List.nodupKeys_cons] at hnd
    obtain ⟨hu, hnd⟩ := hnd
    rw [flushLoop] at h
    cases hex : env.execErr k with
    | some e => simp [hex] at h
    | none =>
      simp only [hex] at h
      obtain ⟨h1, h2, h3⟩ := ih _ _ _ hnd h
      refine ⟨h1, ?_, ?_⟩
      · intro user d hmem
        rcases List.mem_cons.mp hmem with heq | hmem2
        · rw [Sigma.mk.inj_iff] at heq
          obtain ⟨hu1, hd1⟩ := heq
          subst hu1
          have hd2 : d = b := eq_of_heq hd1
          subst hd2
          rw [h3 user hu]
          exact lookup_upsertSpamScore_self _ _ _ _
        · have hne : user ≠ u := by
            intro hh
            subst hh
            exact hu (List.mem_keys.mpr ⟨d, hmem2⟩)
          rw [h2 user d hmem2]
          simp only [lookup_upsertSpamScore_ne _ _ _ _ _ hne]
      · intro user hnot
        simp only [List.keys_cons, List.mem_cons, not_or] at hnot
        rw [h3 user hnot.2]
        exact lookup_upsertSpamScore_ne _ _ _ _ _ hnot.1

/-- What `syncSpamScores` does once the buffer is not empty. -/
theorem syncSpamScores_nonempty (env : Env) (s : State)
    (hne : s.spamScoreBuffer.entries.length ≠ 0) :
    syncSpamScores env s =
      ({ spamScoreBuffer := ∅, db := (flushSpamScores env s).1 }, (flushSpamScores env s).2) := by
  unfold syncSpamScores
  rw [if_neg hne, deleteAll_eq_empty]

/-- The score `getSpamScore` returns is decided by the query alone; the buffer
has no part in it. -/
theorem getSpamScore_eq (env : Env) (s : State) (user : Token) :
    getSpamScore env s user =
      match queryScore env s user with
      | .ok score => .ok score
      | .error .ErrNoRows => .ok env.now
      | .error e => .error e := by
  unfold getSpamScore
  rfl

/-- What `recordValidCaptcha` does to the buffer, whatever the transaction
does. -/
theorem recordValidCaptcha_buffer (env : Env) (s : State) (user : Token) :
    (recordValidCaptcha env s user).1.spamScoreBuffer = s.spamScoreBuffer.erase user := rfl

theorem wrapInt64_modEq (x : Int) : wrapInt64 x ≡ x [ZMOD 2 ^ 64] := by
  unfold wrapInt64
  have h : (x + 2 ^ 63) % 2 ^ 64 ≡ x + 2 ^ 63 [ZMOD 2 ^ 64] := Int.mod_modEq _ _
  have h2 := h.sub_right (2 ^ 63)
  rwa [add_sub_cancel_right] at h2

theorem wrapInt64_congr {x y : Int} (h : x ≡ y [ZMOD 2 ^ 64]) : wrapInt64 x = wrapInt64 y := by
  unfold wrapInt64
  have h2 : (x + 2 ^ 63) % 2 ^ 64 = (y + 2 ^ 63) % 2 ^ 64 := h.add_right (2 ^ 63)
  rw [h2]

/-- The duration `IncrementSpamScore` adds for an increment, up to a multiple
of `2 ^ 64`. -/
theorem increment_modEq (n : Nat) :
    wrapInt64 (wrapInt64 ((n : Int) % 2 ^ 64) * 1000000) ≡ (n : Int) * 1000000 [ZMOD 2 ^ 64] := by
  refine (wrapInt64_modEq _).trans ?_
  refine Int.ModEq.mul_right _ ?_
  exact (wrapInt64_modEq _).trans (Int.mod_modEq _ _)

/-- Adding two increments one after the other, with the wrap-around of
`int64`, is adding their sum. -/
theorem wrapInt64_add_add (d : Int) (a b : Nat) :
    wrapInt64 (wrapInt64 (d + wrapInt64 (wrapInt64 ((a : Int) % 2 ^ 64) * 1000000)) +
        wrapInt64 (wrapInt64 ((b : Int) % 2 ^ 64) * 1000000)) =
      wrapInt64 (d + wrapInt64 (wrapInt64 (((a + b : Nat) : Int) % 2 ^ 64) * 1000000)) := by
  apply wrapInt64_congr
  have h1 : wrapInt64 (d + wrapInt64 (wrapInt64 ((a : Int) % 2 ^ 64) * 1000000)) ≡
      d + (a : Int) * 1000000 [ZMOD 2 ^ 64] :=
    (wrapInt64_modEq _).trans ((Int.ModEq.refl d).add (increment_modEq a))
  have h2 := h1.add (increment_modEq b)
  have h3 : d + wrapInt64 (wrapInt64 (((a + b : Nat) : Int) % 2 ^ 64) * 1000000) ≡
      d + ((a + b : Nat) : Int) * 1000000 [ZMOD 2 ^ 64] :=
    (Int.ModEq.refl d).add (increment_modEq (a + b))
  refine h2.trans (Int.ModEq.trans ?_ h3.symm)
  have : d + (a : Int) * 1000000 + (b : Int) * 1000000 = d + ((a + b : Nat) : Int) * 1000000 := by
    push_cast; ring
  rw [this]

/-- An increment is read modulo `2 ^ 64`, the size of a `uint`. -/
theorem wrapInt64_uint (d : Int) (n : Nat) :
    wrapInt64 (d + wrapInt64 (wrapInt64 (((n % 2 ^ 64 : Nat) : Int) % 2 ^ 64) * 1000000)) =
      wrapInt64 (d + wrapInt64 (wrapInt64 ((n : Int) % 2 ^ 64) * 1000000)) := by
  have : ((n % 2 ^ 64 : Nat) : Int) % 2 ^ 64 = (n : Int) % 2 ^ 64 := by
    push_cast
    exact Int.emod_emod_of_dvd _ (dvd_refl _)
  rw [this]

/-- The buffer after an increment, with the captcha feature on. -/
theorem IncrementSpamScore_on (env : Env) (s : State) (user : Token) (n : Nat)
    (hc : env.captcha = true) :
    IncrementSpamScore env s user n =
      { s with
        spamScoreBuffer :=
          s.spamScoreBuffer.insert user
            (wrapInt64 (s.spamScoreBuffer.get user +
              wrapInt64 (wrapInt64 ((n : Int) % 2 ^ 64) * 1000000))) } := by
  unfold IncrementSpamScore
  simp only [hc, Bool.not_true, Bool.false_eq_true, if_false]
  rfl

theorem Buffer.get_insert (b : Buffer) (user : Token) (d : Duration) :
    Buffer.get (b.insert user d) user = d := by
  simp only [Buffer.get, AList.lookup_insert, Option.getD_some]

theorem IncrementSpamScore_twice (env : Env) (s : State) (user : Token) (a b : Nat)
    (hc : env.captcha = true) :
    IncrementSpamScore env (IncrementSpamScore env s user a) user b =
      IncrementSpamScore env s user (a + b) := by
  rw [IncrementSpamScore_on env _ user b hc, IncrementSpamScore_on env s user a hc,
    IncrementSpamScore_on env s user (a + b) hc]
  simp only [Buffer.get_insert, AList.insert_insert, wrapInt64_add_add]

theorem IncrementSpamScore_mod (env : Env) (s : State) (user : Token) (n : Nat)
    (hc : env.captcha = true) :
    IncrementSpamScore env s user (n % 2 ^ 64) = IncrementSpamScore env s user n := by
  rw [IncrementSpamScore_on env s user _ hc, IncrementSpamScore_on env s user n hc,
    wrapInt64_uint]

/-- The database after a transaction of `recordValidCaptcha` that commits. -/
theorem recordValidCaptcha_ok (env : Env) (s : State) (user : Token)
    (h : (recordValidCaptcha env s user).2 = none) :
    (recordValidCaptcha env s user).1.db =
      { spam_scores := s.db.spam_scores.erase user,
        last_solved_captchas := s.db.last_solved_captchas.insert user (env.now + threeHours) } := by
  have hbody := InTransaction_ok env (recordValidCaptchaTx env user) s.db h
  change _ = Except.ok (recordValidCaptcha env s user).1.db at hbody
  unfold recordValidCaptchaTx at hbody
  cases h0 : env.execErr 0 with
  | some e => simp [h0] at hbody
  | none =>
    cases h1 : env.execErr 1 with
    | some e => simp [h0, h1] at hbody
    | none =>
      simp only [h0, h1, Except.ok.injEq] at hbody
      exact hbody.symm

/-- A call of `ValidateCaptcha` that returns no error, with the captcha
feature on, has run `recordValidCaptcha`, which returned no error. -/
theorem ValidateCaptcha_ok (env : Env) (s : State) (req : Captcha) (user : Token)
    (hc : env.captcha = true) (h : (ValidateCaptcha env s req user).2 = none) :
    ValidateCaptcha env s req user = recordValidCaptcha env s user := by
  unfold ValidateCaptcha at h ⊢
  simp only [hc, Bool.not_true, Bool.false_eq_true, if_false] at h ⊢
  cases hb : env.checkCaptcha req with
  | none => rfl
  | some e =>
    rw [hb] at h
    cases e <;> simp at h

/-! ## Lemmas on requests, addresses and the text of a decoded token -/

/-- A value in the range of `int64` is kept by the wrap-around. -/
theorem wrapInt64_of_range (x : Int) (h1 : -2 ^ 63 ≤ x) (h2 : x < 2 ^ 63) : wrapInt64 x = x := by
  unfold wrapInt64
  rw [Int.emod_eq_of_lt (by omega) (by omega)]
  omega

/-- `TrimPrefix` removes a leading `p`. -/
theorem TrimPrefix_append (p rest : List Byte) : TrimPrefix (p ++ rest) p = rest := by
  unfold TrimPrefix
  rw [if_pos (List.isPrefixOf_iff_prefix.mpr (List.prefix_append p rest))]
  simp

/-- `TrimPrefix` returns a text that does not start with `p` as it is. -/
theorem TrimPrefix_of_not (s p : List Byte) (h : ¬ List.IsPrefix p s) : TrimPrefix s p = s := by
  unfold TrimPrefix
  rw [if_neg (fun hp => h (List.isPrefixOf_iff_prefix.mp hp))]

/-- A text of alphabet characters does not start with `Bearer `, which has a
space. -/
theorem not_bearer_of_safe (s : List Byte) (hs : ∀ c ∈ s, isURLSafe c) :
    ¬ List.IsPrefix (bytes "Bearer ") s := by
  intro hp
  have hmem : (32 : Byte) ∈ bytes "Bearer " := by decide
  have := hs 32 (hp.mem hmem)
  exact absurd this (by decide)

/-- `ExtractToken`, unfolded. -/
theorem ExtractToken_eq (r : Request) :
    ExtractToken r =
      match UnmarshalText (TrimPrefix (r.Header "Authorization") (bytes "Bearer ")) with
      | .ok user => .ok user
      | .error _ => .error (.StatusError 403 "invalid authentication key") := rfl

/-- The header that `withHeader` has set. -/
theorem withHeader_get (r : Request) (name : String) (v : List Byte) :
    (r.withHeader name v).Header name = v := by
  simp [Request.withHeader]

/-- What the scan of `LastIndexByte` returns: `acc` when `c` is not in the
list, and otherwise the index of a `c` after which there is no other. -/
theorem lastIndexFrom_spec (c : Byte) (xs : List Byte) :
    ∀ (i : Nat) (acc : Int),
      (c ∉ xs ∧ lastIndexFrom c xs i acc = acc) ∨
      (∃ k, k < xs.length ∧ lastIndexFrom c xs i acc = ((i + k : Nat) : Int) ∧
        xs = xs.take k ++ c :: xs.drop (k + 1) ∧ c ∉ xs.drop (k + 1)) := by
  induction xs with
  | nil => intro i acc; left; exact ⟨by simp, rfl⟩
  | cons x xs ih =>
    intro i acc
    rw [lastIndexFrom]
    rcases ih (i + 1) (if x = c then (i : Int) else acc) with ⟨hnot, heq⟩ | ⟨k, hk, heq, hsplit, hnot⟩
    · by_cases hx : x = c
      · right
        refine ⟨0, by simp, ?_, ?_, ?_⟩
        · rw [heq, if_pos hx]; simp
        · simp [hx]
        · simpa using hnot
      · left
        refine ⟨?_, ?_⟩
        · simp only [List.mem_cons, not_or]
          exact ⟨fun h => hx h.symm, hnot⟩
        · rw [heq, if_neg hx]
    · right
      refine ⟨k + 1, by simp; omega, ?_, ?_, ?_⟩
      · rw [heq]; congr 1; omega
      · simp only [List.take_succ_cons, List.drop_succ_cons, List.cons_append]
        rw [← hsplit]
      · simpa using hnot

/-- The text after the last comma has no comma, and it is the whole header
or what follows a comma of the header. -/
theorem afterLastComma_spec (h : List Byte) :
    (44 : Byte) ∉ afterLastComma h ∧
      (afterLastComma h = h ∨ ∃ pre, h = pre ++ 44 :: afterLastComma h) := by
  unfold afterLastComma LastIndexByte
  rcases lastIndexFrom_spec 44 h 0 (-1) with ⟨hnot, heq⟩ | ⟨k, _, heq, hsplit, hnot⟩
  · rw [heq]
    simp only [ne_eq, not_true_eq_false, if_false]
    exact ⟨hnot, Or.inl trivial⟩
  · rw [heq]
    have hne : ((0 + k : Nat) : Int) ≠ -1 := by omega
    rw [if_pos hne]
    have hk : (((0 + k : Nat) : Int) + 1).toNat = k + 1 := by omega
    rw [hk]
    exact ⟨hnot, Or.inr ⟨h.take k, hsplit⟩⟩

/-- `GetIP` when the reverse proxy is not trusted. -/
theorem GetIP_direct (parseIPv6 : List Byte → Option IP) (r : Request) :
    GetIP parseIPv6 false r = resolveAddr parseIPv6 r.RemoteAddr := by
  rfl

/-- `GetIP` when the reverse proxy is trusted and the header is set. -/
theorem GetIP_proxied (parseIPv6 : List Byte → Option IP) (r : Request)
    (hh : r.Header "X-Forwarded-For" ≠ []) :
    GetIP parseIPv6 true r =
      resolveAddr parseIPv6
        (if TrimSpace (afterLastComma (r.Header "X-Forwarded-For")) = [] then r.RemoteAddr
          else TrimSpace (afterLastComma (r.Header "X-Forwarded-For"))) := by
  unfold GetIP resolveAddr stripPort afterLastComma
  simp only [if_true, hh, ne_eq, not_false_eq_true]
  try rfl

/-- The last entry of the header `9.9.9.9, 1.1.1.1`, trimmed. -/
theorem trim_example : TrimSpace (afterLastComma (bytes "9.9.9.9, 1.1.1.1")) = bytes "1.1.1.1" := by
  decide

/-- The candidate `1.1.1.1` resolves to that address. -/
theorem resolve_example (p : List Byte → Option IP) :
    resolveAddr p (bytes "1.1.1.1") = (some (IPv4 1 1 1 1), none) := rfl

/-- The candidate `1.2.3.4:5555` resolves to the address `1.2.3.4`. -/
theorem resolve_example2 (p : List Byte → Option IP) :
    resolveAddr p (bytes "1.2.3.4:5555") = (some (IPv4 1 2 3 4), none) := rfl

/-- What `trimStart` returns is an end of its argument. -/
theorem trimStart_suffix (runes : List (List Byte)) :
    ∀ (fuel : Nat) (s : List Byte), List.IsSuffix (trimStart runes fuel s) s := by
  intro fuel
  induction fuel with
  | zero => intro s; exact List.suffix_refl s
  | succ n ih =>
    intro s
    rw [trimStart]
    cases hf : runes.find? (fun r => r.isPrefixOf s) with
    | none => exact List.suffix_refl s
    | some r => exact (ih _).trans (List.drop_suffix _ _)

/-- With fuel for every byte, what `trimStart` returns starts with none of the
runes: the fuel is not used up before the trimming is done. -/
theorem trimStart_done (runes : List (List Byte)) (hne : ∀ r ∈ runes, r ≠ []) :
    ∀ (fuel : Nat) (s : List Byte), s.length ≤ fuel →
      ∀ r ∈ runes, ¬ List.IsPrefix r (trimStart runes fuel s) := by
  intro fuel
  induction fuel with
  | zero =>
    intro s hs r hr hp
    have hnil : s = [] := List.length_eq_zero.mp (by omega)
    subst hnil
    rw [trimStart] at hp
    exact hne r hr (List.prefix_nil.mp hp)
  | succ n ih =>
    intro s hs r hr
    rw [trimStart]
    cases hf : runes.find? (fun r => r.isPrefixOf s) with
    | none =>
      intro hp
      have := List.find?_eq_none.mp hf r hr
      exact this (List.isPrefixOf_iff_prefix.mpr hp)
    | some r1 =>
      have hr1 : r1 ∈ runes := List.mem_of_find?_eq_some hf
      have hp1 : List.IsPrefix r1 s := List.isPrefixOf_iff_prefix.mp (by simpa using List.find?_some hf)
      have hlen1 : 0 < r1.length := List.length_pos.mpr (hne r1 hr1)
      have hle : r1.length ≤ s.length := hp1.length_le
      exact ih (s.drop r1.length) (by rw [List.length_drop]; omega) r hr

/-- No white space rune has an empty encoding. -/
theorem spaceRunes_ne_nil : ∀ r ∈ spaceRunes, r ≠ [] := by decide

/-- `TrimSpace` returns a part of its argument that neither starts nor ends
with a white space rune. -/
theorem TrimSpace_spec (s : List Byte) :
    List.IsInfix (TrimSpace s) s ∧
      (∀ r ∈ spaceRunes, ¬ List.IsPrefix r (TrimSpace s)) ∧
      (∀ r ∈ spaceRunes, ¬ List.IsSuffix r (TrimSpace s)) := by
  have hrev : ∀ r ∈ spaceRunes.map List.reverse, r ≠ [] := by
    intro r hr
    obtain ⟨r0, hr0, rfl⟩ := List.mem_map.mp hr
    simpa using spaceRunes_ne_nil r0 hr0
  have hT : TrimSpace s = (trimStart (spaceRunes.map List.reverse)
      (trimStart spaceRunes s.length s).length (trimStart spaceRunes s.length s).reverse).reverse :=
    rfl
  rw [hT]
  have h1 := trimStart_suffix spaceRunes s.length s
  have h2 := trimStart_done spaceRunes spaceRunes_ne_nil s.length s (le_refl _)
  generalize trimStart spaceRunes s.length s = t at h1 h2 ⊢
  have h3 := trimStart_suffix (spaceRunes.map List.reverse) t.length t.reverse
  have h4 := trimStart_done (spaceRunes.map List.reverse) hrev t.length t.reverse (by simp)
  generalize trimStart (spaceRunes.map List.reverse) t.length t.reverse = u at h3 h4 ⊢
  have hpre : List.IsPrefix u.reverse t := by
    have := List.reverse_prefix.mpr h3
    simpa using this
  refine ⟨?_, ?_, ?_⟩
  · exact hpre.isInfix.trans h1.isInfix
  · intro r hr hp
    exact h2 r hr (hp.trans hpre)
  · intro r hr hp
    have hp2 : List.IsPrefix r.reverse u := by
      have := List.reverse_prefix.mpr hp
      simpa using this
    exact h4 r.reverse (List.mem_map.mpr ⟨r, hr, rfl⟩) hp2

/-- What `stripPort` returns. -/
theorem stripPort_spec (s : List Byte) :
    (∃ host port, SplitHostPort s = .ok (host, port) ∧ stripPort s = host) ∨
      ((∀ hp, SplitHostPort s ≠ .ok hp) ∧ stripPort s = s) := by
  unfold stripPort
  cases h : SplitHostPort s with
  | ok hp =>
    obtain ⟨host, port⟩ := hp
    exact Or.inl ⟨host, port, rfl, rfl⟩
  | error e =>
    refine Or.inr ⟨?_, rfl⟩
    intro hp hh
    cases hh

/-- The address `resolveAddr` returns. -/
theorem resolveAddr_fst (parseIPv6 : List Byte → Option IP) (s : List Byte) :
    (resolveAddr parseIPv6 s).1 = ParseIP parseIPv6 (stripPort s) := by
  unfold resolveAddr
  cases ParseIP parseIPv6 (stripPort s) <;> rfl

/-- The error `resolveAddr` returns. -/
theorem resolveAddr_snd (parseIPv6 : List Byte → Option IP) (s : List Byte) :
    ((resolveAddr parseIPv6 s).2 = none ↔ ∃ ip, ParseIP parseIPv6 (stripPort s) = some ip) ∧
    ((resolveAddr parseIPv6 s).2 = some (.invalidIP (stripPort s)) ↔
      ParseIP parseIPv6 (stripPort s) = none) := by
  unfold resolveAddr
  cases ParseIP parseIPv6 (stripPort s) <;> simp

set_option maxRecDepth 100000 in
/-- The alphabet character of the sextet of an alphabet character is that
character. -/
theorem encodeChar_decodeMap : ∀ c : Byte, isURLSafe c → encodeChar (decodeMap c) = c := by
  decide

set_option maxRecDepth 100000 in
/-- The sextet of an alphabet character is below 64. -/
theorem decodeMap_lt_of_safe : ∀ c : Byte, isURLSafe c → decodeMap c < 64 := by
  decide

/-- Reading one alphabet character. -/
theorem decodeLoop_safe_char (c : Byte) (hc : isURLSafe c) (src : List Byte) (dbuf : List Nat)
    (dst : List Byte) :
    decodeLoop (c :: src) dbuf dst =
      if dbuf.length + 1 = 4 then decodeLoop src [] (dst ++ quantumBytes (dbuf ++ [decodeMap c]))
      else decodeLoop src (dbuf ++ [decodeMap c]) dst := by
  rw [decodeLoop]
  rw [if_pos ((decodeMap_ne_iff c).mpr hc)]

/-- Encoding the three bytes of a quantum of four sextets gives the characters
of the four sextets. -/
theorem Encode_quantum4 (d0 d1 d2 d3 : Nat) (h0 : d0 < 64) (h1 : d1 < 64) (h2 : d2 < 64)
    (h3 : d3 < 64) (tail : List Byte) :
    Encode (quantumBytes [d0, d1, d2, d3] ++ tail) =
      encodeChar d0 :: encodeChar d1 :: encodeChar d2 :: encodeChar d3 :: Encode tail := by
  simp only [quantumBytes, List.getD_cons_zero, List.getD_cons_succ, List.length_cons,
    List.length_nil]
  rw [val4_eq _ _ _ _ h1 h2 h3]
  simp only [List.cons_append, List.nil_append]
  rw [Encode_cons3]
  simp only [Nat.shiftRight_eq_div_pow, toByte, Fin.ofNat, Fin.val_mk]
  have e0 : ((d0 * 262144 + d1 * 4096 + d2 * 64 + d3) / 2 ^ 16 % (255 + 1) * 65536 +
      (d0 * 262144 + d1 * 4096 + d2 * 64 + d3) / 2 ^ 8 % (255 + 1) * 256 +
      (d0 * 262144 + d1 * 4096 + d2 * 64 + d3) / 2 ^ 0 % (255 + 1)) =
      d0 * 262144 + d1 * 4096 + d2 * 64 + d3 := by omega
  rw [e0]
  have a0 : (d0 * 262144 + d1 * 4096 + d2 * 64 + d3) / 2 ^ 18 % 64 = d0 := by omega
  have a1 : (d0 * 262144 + d1 * 4096 + d2 * 64 + d3) / 2 ^ 12 % 64 = d1 := by omega
  have a2 : (d0 * 262144 + d1 * 4096 + d2 * 64 + d3) / 2 ^ 6 % 64 = d2 := by omega
  have a3 : (d0 * 262144 + d1 * 4096 + d2 * 64 + d3) % 64 = d3 := by omega
  rw [a0, a1, a2, a3]

/-- Encoding the byte of a quantum of two sextets gives the character of the
first and the character of the second with its four low bits cleared. -/
theorem Encode_quantum2 (d0 d1 : Nat) (h0 : d0 < 64) (h1 : d1 < 64) :
    Encode (quantumBytes [d0, d1]) = [encodeChar d0, encodeChar (d1 / 16 * 16)] := by
  simp only [quantumBytes, List.getD_cons_zero, List.getD_cons_succ, List.length_cons,
    List.length_nil, List.getD_nil]
  rw [val4_eq _ _ _ _ h1 (by norm_num) (by norm_num)]
  rw [Encode_one]
  simp only [Nat.shiftRight_eq_div_pow, toByte, Fin.ofNat, Fin.val_mk]
  have a0 : (d0 * 262144 + d1 * 4096 + 0 * 64 + 0) / 2 ^ 16 % (255 + 1) * 65536 / 2 ^ 18 % 64 =
      d0 := by omega
  have a1 : (d0 * 262144 + d1 * 4096 + 0 * 64 + 0) / 2 ^ 16 % (255 + 1) * 65536 / 2 ^ 12 % 64 =
      d1 / 16 * 16 := by omega
  rw [a0, a1]

/-- Decoding a text of alphabet characters and encoding the bytes again gives
`canonText` of the text. -/
theorem Encode_decodeLoop (s : List Byte) :
    ∀ dst, (∀ c ∈ s, isURLSafe c) → s.length % 4 = 2 →
      ∃ out, decodeLoop s [] dst = (dst ++ out, none) ∧ Encode out = canonText s := by
  induction s using canonText.induct with
  | case1 c0 c1 c2 c3 c4 rest ih =>
    intro dst hs hlen
    have s0 := hs c0 (by simp)
    have s1 := hs c1 (by simp)
    have s2 := hs c2 (by simp)
    have s3 := hs c3 (by simp)
    have hrest : ∀ c ∈ c4 :: rest, isURLSafe c := fun c hc => hs c (by
      simp only [List.mem_cons] at hc ⊢; tauto)
    have hl : (c4 :: rest).length % 4 = 2 := by
      simp only [List.length_cons] at hlen ⊢; omega
    obtain ⟨out, hdec, henc⟩ :=
      ih (dst ++ quantumBytes [decodeMap c0, decodeMap c1, decodeMap c2, decodeMap c3]) hrest hl
    refine ⟨quantumBytes [decodeMap c0, decodeMap c1, decodeMap c2, decodeMap c3] ++ out, ?_, ?_⟩
    · rw [decodeLoop_safe_char c0 s0, if_neg (by simp), decodeLoop_safe_char c1 s1,
        if_neg (by simp), decodeLoop_safe_char c2 s2, if_neg (by simp),
        decodeLoop_safe_char c3 s3, if_pos (by simp)]
      simp only [List.nil_append, List.cons_append]
      rw [hdec, List.append_assoc]
    · rw [Encode_quantum4 _ _ _ _ (decodeMap_lt_of_safe c0 s0) (decodeMap_lt_of_safe c1 s1)
        (decodeMap_lt_of_safe c2 s2) (decodeMap_lt_of_safe c3 s3), henc, canonText,
        encodeChar_decodeMap c0 s0, encodeChar_decodeMap c1 s1, encodeChar_decodeMap c2 s2,
        encodeChar_decodeMap c3 s3]
  | case2 c0 c1 =>
    intro dst hs _
    have s0 := hs c0 (by simp)
    have s1 := hs c1 (by simp)
    refine ⟨quantumBytes [decodeMap c0, decodeMap c1], ?_, ?_⟩
    · rw [decodeLoop_safe_char c0 s0, if_neg (by simp), decodeLoop_safe_char c1 s1,
        if_neg (by simp)]
      simp [decodeLoop]
    · rw [Encode_quantum2 _ _ (decodeMap_lt_of_safe c0 s0) (decodeMap_lt_of_safe c1 s1),
        canonText, encodeChar_decodeMap c0 s0]
  | case3 s h1 h2 =>
    intro dst hs hlen
    exfalso
    match s, h1, h2 with
    | [], _, _ => simp at hlen
    | [_], _, _ => simp at hlen
    | [_, _], _, h2 => exact h2 _ _ rfl
    | [_, _, _], _, _ => simp at hlen
    | [_, _, _, _], _, _ => simp at hlen
    | _ :: _ :: _ :: _ :: _ :: _, h1, _ => exact h1 _ _ _ _ _ _ rfl

/-- The text `canonText` returns, by its last character. -/
theorem canonText_eq (s : List Byte) :
    s.length % 4 = 2 →
      canonText s =
        s.take (s.length - 1) ++ [encodeChar (decodeMap (s.getD (s.length - 1) 0) / 16 * 16)] := by
  induction s using canonText.induct with
  | case1 c0 c1 c2 c3 c4 rest ih =>
    intro hlen
    have hl : (c4 :: rest).length % 4 = 2 := by
      simp only [List.length_cons] at hlen ⊢; omega
    rw [canonText, ih hl]
    have h1 : (c0 :: c1 :: c2 :: c3 :: c4 :: rest).length - 1 = (c4 :: rest).length - 1 + 4 := by
      simp only [List.length_cons]; omega
    rw [h1]
    simp only [List.take_succ_cons, List.getD_cons_succ, List.cons_append]
  | case2 c0 c1 =>
    intro _
    simp [canonText]
  | case3 s h1 h2 =>
    intro hlen
    exfalso
    match s, h1, h2 with
    | [], _, _ => simp at hlen
    | [_], _, _ => simp at hlen
    | [_, _], _, h2 => exact h2 _ _ rfl
    | [_, _, _], _, _ => simp at hlen
    | [_, _, _, _], _, _ => simp at hlen
    | _ :: _ :: _ :: _ :: _ :: _, h1, _ => exact h1 _ _ _ _ _ _ rfl

/-- The token `UnmarshalText` returns holds the bytes `Decode` wrote. -/
theorem UnmarshalText_val (s : List Byte) (T : Token) (h : UnmarshalText s = .ok T) :
    T.val = (Decode s).1 := by
  unfold UnmarshalText at h
  by_cases hlen : s.length ≠ 86
  · rw [if_pos hlen] at h
    cases h
  · rw [if_neg hlen] at h
    by_cases hd : (Decode s).1.length ≠ 64 ∨ (Decode s).2 ≠ none
    · simp only [dif_pos hd] at h
      cases h
    · simp only [dif_neg hd] at h
      cases h
      rfl

/-- The text of the token decoded from an accepted text `s`. -/
theorem MarshalText_of_accepted (s : List Byte) (T : Token) (h : UnmarshalText s = .ok T) :
    s.length = 86 ∧ (∀ c ∈ s, isURLSafe c) ∧
      (MarshalText T).1 =
        s.take 85 ++ [encodeChar (decodeMap (s.getD 85 0) / 16 * 16)] := by
  obtain ⟨hlen, hs⟩ := (UnmarshalText_ok_iff s).mp ⟨T, h⟩
  refine ⟨hlen, hs, ?_⟩
  obtain ⟨out, hdec, henc⟩ := Encode_decodeLoop s [] hs (by rw [hlen])
  have hval := UnmarshalText_val s T h
  have hout : T.val = out := by
    rw [hval]
    have : Decode s = ([] ++ out, none) := hdec
    rw [this]
    rfl
  rw [MarshalText_fst, hout, henc, canonText_eq s (by rw [hlen]), hlen]

set_option maxRecDepth 100000 in
/-- The text `textA` decodes to `tokenA`. -/
theorem UnmarshalText_textA : UnmarshalText textA = .ok tokenA :=
  UnmarshalText_of_Decode textA tokenA (by decide) (by decide)

set_option maxRecDepth 100000 in
/-- The text `textB` decodes to `tokenA` as well. -/
theorem UnmarshalText_textB : UnmarshalText textB = .ok tokenA :=
  UnmarshalText_of_Decode textB tokenA (by decide) (by decide)

set_option maxRecDepth 100000 in
/-- The text of `tokenA` is `textA`. -/
theorem MarshalText_tokenA : (MarshalText tokenA).1 = textA := by decide

/-! ## The claims -/

/-- C1: round trip of the token text codec. For every token `T`,
`MarshalText` returns a nil error, and `UnmarshalText` applied to the text it
returns succeeds and yields exactly `T`. -/
theorem MarshalText_UnmarshalText_roundtrip (T : Token) :
    (MarshalText T).2 = none ∧ UnmarshalText (MarshalText T).1 = .ok T := by
  refine ⟨rfl, ?_⟩
  have hlen : (Encode T.val).length = 86 := by rw [Encode_length, T.property]; rfl
  rw [MarshalText_fst]
  refine UnmarshalText_of_Decode _ T hlen ?_
  have h := decodeLoop_Encode T.val []
  simpa [Decode] using h

/-- C2, as the code has it: when the buffer is not empty and the transaction
of `flushSpamScores` fails with error `e`, `syncSpamScores` returns `e` and the
buffer is empty after the call: the loop that deletes the entries runs whether
or not the flush failed, so the buffered increments are dropped and a later
flush does not retry them. -/
theorem syncSpamScores_failure (env : Env) (s : State) (e : Error)
    (hne : s.spamScoreBuffer.entries.length ≠ 0)
    (hfail : (flushSpamScores env s).2 = some e) :
    (syncSpamScores env s).2 = some e ∧ (syncSpamScores env s).1.spamScoreBuffer = ∅ := by
  rw [syncSpamScores_nonempty env s hne]
  exact ⟨hfail, rfl⟩

/-- Witness of C2 as amended: `stateA` flushed while every statement fails. -/
theorem syncSpamScores_failure_witness :
    stateA.spamScoreBuffer.entries.length ≠ 0 ∧
      (flushSpamScores envTxFail stateA).2 = some (.other 1) ∧
      (syncSpamScores envTxFail stateA).2 = some (.other 1) ∧
      (syncSpamScores envTxFail stateA).1.spamScoreBuffer = ∅ :=
  ⟨by decide, rfl, syncSpamScores_failure envTxFail stateA (.other 1) (by decide) rfl⟩

/-- Counterexample to C2 as stated: with 100 ms buffered for `tokenA` and a
transaction that fails, `syncSpamScores` returns the error and the buffer after
the call is not the buffer before it. -/
theorem syncSpamScores_failure_counterexample :
    stateA.spamScoreBuffer.entries.length ≠ 0 ∧
      (flushSpamScores envTxFail stateA).2 = some (.other 1) ∧
      (syncSpamScores envTxFail stateA).2 = some (.other 1) ∧
      (syncSpamScores envTxFail stateA).1.spamScoreBuffer ≠ stateA.spamScoreBuffer := by
  refine ⟨by decide, rfl, rfl, ?_⟩
  intro h
  have h1 : (syncSpamScores envTxFail stateA).1.spamScoreBuffer.lookup tokenA = none := rfl
  have h2 : stateA.spamScoreBuffer.lookup tokenA = some 100000000 := rfl
  rw [h, h2] at h1
  cases h1

/-- C3, the code at the failing input: `tokenA` has 100 ms buffered and no row,
the query reports no rows, and `getSpamScore` returns `now`, which is not `now`
plus the buffered duration. -/
theorem getSpamScore_drops_buffered :
    stateA.spamScoreBuffer.get tokenA = 100000000 ∧
      queryScore envOk stateA tokenA = .error .ErrNoRows ∧
      getSpamScore envOk stateA tokenA = .ok envOk.now ∧
      envOk.now ≠ envOk.now + stateA.spamScoreBuffer.get tokenA := by
  refine ⟨rfl, rfl, rfl, by decide⟩

/-- The decision of `NeedCaptcha` by the score that `getSpamScore` returns:
with the captcha feature on and no storage error, `NeedCaptcha` returns true
when the token has no row in `last_solved_captchas` with expiry after `now`,
and otherwise returns whether the score `getSpamScore` returns is strictly
after `now` plus one minute (60000000000 ns). -/
theorem NeedCaptcha_by_getSpamScore (env : Env) (s : State) (user : Token)
    (hc : env.captcha = true) (hq1 : env.solvedQueryErr = none)
    (hq2 : env.scoreQueryErr = none) :
    ((¬ ∃ expires, s.db.last_solved_captchas.lookup user = some expires ∧ expires > env.now) →
        NeedCaptcha env s user = (true, none)) ∧
    ((∃ expires, s.db.last_solved_captchas.lookup user = some expires ∧ expires > env.now) →
        ∃ score, getSpamScore env s user = .ok score ∧
          NeedCaptcha env s user = (decide (score > env.now + 60000000000), none)) := by
  have hscore : ∃ score, getSpamScore env s user = .ok score := by
    unfold getSpamScore queryScore
    rw [hq2]
    cases s.db.spam_scores.lookup user with
    | none => exact ⟨_, rfl⟩
    | some e =>
      by_cases h : e > env.now
      · simp only [if_pos h]; exact ⟨_, rfl⟩
      · simp only [if_neg h]; exact ⟨_, rfl⟩
  constructor
  · intro hno
    unfold NeedCaptcha SolvedCaptchaRecently
    simp only [hc, hq1, Bool.not_true, Bool.false_eq_true, if_false]
    cases hl : s.db.last_solved_captchas.lookup user with
    | none => rfl
    | some e =>
      have : ¬ e > env.now := fun h => hno ⟨e, hl, h⟩
      simp [this]
  · rintro ⟨e, hl, he⟩
    obtain ⟨score, hs⟩ := hscore
    refine ⟨score, hs, ?_⟩
    unfold NeedCaptcha SolvedCaptchaRecently
    simp only [hc, hq1, hl, he, hs, Bool.not_true, Bool.false_eq_true, if_false, decide_True]
    rfl

/-- C4, the code at the failing input: the captcha feature is on, no query
fails, `tokenA` has a row in `last_solved_captchas` with expiry after `now`, no
row in `spam_scores` and 10 minutes buffered, so its merged score `now` plus
the buffered duration is strictly after `now` plus one minute; `NeedCaptcha`
returns false, because the score `getSpamScore` returns is `now`, without the
buffered duration. -/
theorem NeedCaptcha_drops_buffered :
    envOk.captcha = true ∧ envOk.solvedQueryErr = none ∧ envOk.scoreQueryErr = none ∧
    stateSolvedBuffered.db.last_solved_captchas.lookup tokenA = some 5000 ∧
    (5000 : Time) > envOk.now ∧
    stateSolvedBuffered.db.spam_scores.lookup tokenA = none ∧
    stateSolvedBuffered.spamScoreBuffer.get tokenA = 600000000000 ∧
    envOk.now + stateSolvedBuffered.spamScoreBuffer.get tokenA > envOk.now + 60000000000 ∧
    getSpamScore envOk stateSolvedBuffered tokenA = .ok envOk.now ∧
    NeedCaptcha envOk stateSolvedBuffered tokenA = (false, none) := by
  refine ⟨rfl, rfl, rfl, rfl, by decide, rfl, rfl, by decide, rfl, rfl⟩

/-- C5, as the code has it: when the transaction of `recordValidCaptcha`
fails with error `e`, `recordValidCaptcha` returns `e` and the token has no
buffered entry after the call, whatever it had before: the entry is deleted
before the transaction runs and is not put back. -/
theorem recordValidCaptcha_failure (env : Env) (s : State) (user : Token) (e : Error)
    (hfail : (InTransaction env (recordValidCaptchaTx env user) s.db).2 = some e) :
    (recordValidCaptcha env s user).2 = some e ∧
      (recordValidCaptcha env s user).1.spamScoreBuffer.lookup user = none := by
  refine ⟨hfail, ?_⟩
  rw [recordValidCaptcha_buffer]
  exact AList.lookup_erase _ _

/-- Witness of C5 as amended: `tokenA` in `stateA` while every statement
fails. -/
theorem recordValidCaptcha_failure_witness :
    (InTransaction envTxFail (recordValidCaptchaTx envTxFail tokenA) stateA.db).2 =
        some (.other 1) ∧
      (recordValidCaptcha envTxFail stateA tokenA).2 = some (.other 1) ∧
      (recordValidCaptcha envTxFail stateA tokenA).1.spamScoreBuffer.lookup tokenA = none :=
  ⟨rfl, recordValidCaptcha_failure envTxFail stateA tokenA (.other 1) rfl⟩

/-- Counterexample to C5 as stated: `tokenA` has 100 ms buffered, the
transaction of `recordValidCaptcha` fails, `recordValidCaptcha` returns its
error, and afterwards the entry of `tokenA` is not the one before the call:
there is none. -/
theorem recordValidCaptcha_failure_counterexample :
    (InTransaction envTxFail (recordValidCaptchaTx envTxFail tokenA) stateA.db).2 =
        some (.other 1) ∧
      (recordValidCaptcha envTxFail stateA tokenA).2 = some (.other 1) ∧
      stateA.spamScoreBuffer.lookup tokenA = some 100000000 ∧
      (recordValidCaptcha envTxFail stateA tokenA).1.spamScoreBuffer.lookup tokenA = none ∧
      (recordValidCaptcha envTxFail stateA tokenA).1.spamScoreBuffer.lookup tokenA ≠
        stateA.spamScoreBuffer.lookup tokenA := by
  refine ⟨rfl, rfl, rfl, rfl, ?_⟩
  intro h
  have h1 : (recordValidCaptcha envTxFail stateA tokenA).1.spamScoreBuffer.lookup tokenA =
      none := rfl
  have h2 : stateA.spamScoreBuffer.lookup tokenA = some 100000000 := rfl
  rw [h1, h2] at h
  cases h

/-- C6, as the code has it: flush postcondition on success. When the buffer
is not empty and the transaction of `flushSpamScores` commits, `syncSpamScores`
returns no error, the buffer is empty afterwards, every buffered pair
`(user, d)` has its row set to `max expires now` plus the interval sent for `d`
if the row `expires` existed and to `now` plus that interval if there was none,
and the rows of the tokens that were not buffered are unchanged. The interval
sent for `d` is `d` truncated toward zero to whole microseconds; it is `d`
itself when `d` is a whole number of microseconds. -/
theorem syncSpamScores_success (env : Env) (s : State)
    (hne : s.spamScoreBuffer.entries.length ≠ 0)
    (hok : (flushSpamScores env s).2 = none) :
    (syncSpamScores env s).2 = none ∧
    (syncSpamScores env s).1.spamScoreBuffer = ∅ ∧
    (∀ user d expires, s.spamScoreBuffer.lookup user = some d →
        s.db.spam_scores.lookup user = some expires →
        (syncSpamScores env s).1.db.spam_scores.lookup user =
          some (max expires env.now + Int.tdiv d 1000 * 1000)) ∧
    (∀ user d, s.spamScoreBuffer.lookup user = some d →
        s.db.spam_scores.lookup user = none →
        (syncSpamScores env s).1.db.spam_scores.lookup user =
          some (env.now + Int.tdiv d 1000 * 1000)) ∧
    (∀ user, s.spamScoreBuffer.lookup user = none →
        (syncSpamScores env s).1.db.spam_scores.lookup user =
          s.db.spam_scores.lookup user) ∧
    (∀ d : Duration, (1000 : Int) ∣ d → Int.tdiv d 1000 * 1000 = d) := by
  rw [syncSpamScores_nonempty env s hne]
  have hbody := InTransaction_ok env _ s.db hok
  obtain ⟨_, h2, h3⟩ := flushLoop_ok env _ 0 s.db _ s.spamScoreBuffer.nodupKeys hbody
  refine ⟨hok, rfl, ?_, ?_, ?_, fun d hd => intervalOf_of_dvd d hd⟩
  · intro user d expires hb hdb
    have hmem : Sigma.mk user d ∈ s.spamScoreBuffer.entries := AList.mem_lookup_iff.mp hb
    have := h2 user d hmem
    rw [hdb] at this
    exact this
  · intro user d hb hdb
    have hmem : Sigma.mk user d ∈ s.spamScoreBuffer.entries := AList.mem_lookup_iff.mp hb
    have := h2 user d hmem
    rw [hdb] at this
    exact this
  · intro user hb
    exact h3 user (AList.lookup_eq_none.mp hb)

/-- Witness of C6 as amended: `stateAB` flushed at instant 1000 while nothing
fails. -/
theorem syncSpamScores_success_witness :
    stateAB.spamScoreBuffer.entries.length ≠ 0 ∧
    (flushSpamScores envOk stateAB).2 = none ∧
    (syncSpamScores envOk stateAB).2 = none ∧
    (syncSpamScores envOk stateAB).1.spamScoreBuffer = ∅ ∧
    (∀ user d expires, stateAB.spamScoreBuffer.lookup user = some d →
        stateAB.db.spam_scores.lookup user = some expires →
        (syncSpamScores envOk stateAB).1.db.spam_scores.lookup user =
          some (max expires envOk.now + Int.tdiv d 1000 * 1000)) ∧
    (∀ user d, stateAB.spamScoreBuffer.lookup user = some d →
        stateAB.db.spam_scores.lookup user = none →
        (syncSpamScores envOk stateAB).1.db.spam_scores.lookup user =
          some (envOk.now + Int.tdiv d 1000 * 1000)) ∧
    (∀ user, stateAB.spamScoreBuffer.lookup user = none →
        (syncSpamScores envOk stateAB).1.db.spam_scores.lookup user =
          stateAB.db.spam_scores.lookup user) ∧
    (∀ d : Duration, (1000 : Int) ∣ d → Int.tdiv d 1000 * 1000 = d) :=
  ⟨by decide, rfl, syncSpamScores_success envOk stateAB (by decide) rfl⟩

/-- Counterexample to C6 as stated: one increment of 18446744073710 on the
empty buffer leaves 448384 ns buffered for `tokenA`, which has no row; the
flush commits and writes the expiry `now` plus 448000 ns, not `now` plus the
buffered 448384 ns. -/
theorem syncSpamScores_success_counterexample :
    IncrementSpamScore envOk stateEmpty tokenA 18446744073710 = stateMicro ∧
    stateMicro.spamScoreBuffer.entries.length ≠ 0 ∧
    (flushSpamScores envOk stateMicro).2 = none ∧
    stateMicro.spamScoreBuffer.lookup tokenA = some 448384 ∧
    stateMicro.db.spam_scores.lookup tokenA = none ∧
    (syncSpamScores envOk stateMicro).1.db.spam_scores.lookup tokenA =
      some (envOk.now + 448000) ∧
    (syncSpamScores envOk stateMicro).1.db.spam_scores.lookup tokenA ≠
      some (envOk.now + 448384) := by
  have h : (syncSpamScores envOk stateMicro).1.db.spam_scores.lookup tokenA =
      some (envOk.now + 448000) := rfl
  refine ⟨rfl, by decide, rfl, rfl, rfl, h, ?_⟩
  rw [h]
  decide

/-- C7: decode acceptance. For every byte string `s`, `UnmarshalText` succeeds
exactly when `s` has 86 bytes that are all in the URL-safe base64 alphabet;
otherwise it returns `ErrInvalidToken`, which is so its only error; and it
returns `ErrInvalidToken` exactly when `s` does not have 86 bytes or `Decode`
does not give 64 bytes without an error. On success the token is what `Decode`
wrote. -/
theorem UnmarshalText_acceptance (s : List Byte) :
    ((∃ T, UnmarshalText s = .ok T) ↔ (s.length = 86 ∧ ∀ c ∈ s, isURLSafe c)) ∧
    (UnmarshalText s = .error .ErrInvalidToken ↔ ¬ (s.length = 86 ∧ ∀ c ∈ s, isURLSafe c)) ∧
    (UnmarshalText s = .error .ErrInvalidToken ↔
      (s.length ≠ 86 ∨ (Decode s).1.length ≠ 64 ∨ (Decode s).2 ≠ none)) ∧
    ((∃ T : Token, UnmarshalText s = .ok T ∧ T.val = (Decode s).1) ∨
      UnmarshalText s = .error .ErrInvalidToken) := by
  have hcases : (∃ T : Token, UnmarshalText s = .ok T ∧ T.val = (Decode s).1) ∨
      (UnmarshalText s = .error .ErrInvalidToken ∧
        (s.length ≠ 86 ∨ (Decode s).1.length ≠ 64 ∨ (Decode s).2 ≠ none)) := by
    unfold UnmarshalText
    by_cases hlen : s.length ≠ 86
    · right
      rw [if_pos hlen]
      exact ⟨rfl, Or.inl hlen⟩
    · rw [if_neg hlen]
      by_cases hd : (Decode s).1.length ≠ 64 ∨ (Decode s).2 ≠ none
      · right
        simp only [dif_pos hd]
        exact ⟨trivial, Or.inr hd⟩
      · left
        simp only [dif_neg hd]
        exact ⟨_, rfl, rfl⟩
  have hiff := UnmarshalText_ok_iff s
  have hexcl : ∀ T, UnmarshalText s = .ok T → UnmarshalText s ≠ .error .ErrInvalidToken := by
    intro T h1 h2
    rw [h1] at h2
    cases h2
  refine ⟨hiff, ?_, ?_, ?_⟩
  · constructor
    · intro herr hacc
      obtain ⟨T, hT⟩ := hiff.mpr hacc
      exact hexcl T hT herr
    · intro hnot
      rcases hcases with ⟨T, hT, _⟩ | ⟨herr, _⟩
      · exact absurd (hiff.mp ⟨T, hT⟩) hnot
      · exact herr
  · constructor
    · intro herr
      rcases hcases with ⟨T, hT, _⟩ | ⟨_, hd⟩
      · exact absurd herr (hexcl T hT)
      · exact hd
    · intro hd
      rcases hcases with ⟨T, hT, hval⟩ | ⟨herr, _⟩
      · exfalso
        obtain ⟨hlen, hsafe⟩ := hiff.mp ⟨T, hT⟩
        have hnone : (Decode s).2 = none :=
          decodeLoop_safe s [] [] (by simp) hsafe (by simp [hlen])
        rcases hd with h | h | h
        · exact h hlen
        · rw [← hval, T.property] at h
          exact h rfl
        · exact h hnone
      · exact herr
  · rcases hcases with h | ⟨herr, _⟩
    · exact Or.inl h
    · exact Or.inr herr

/-- C8: encode is total with fixed-size output. For every token,
`MarshalText` returns a nil error and a text of exactly 86 bytes, each of which
is in the URL-safe base64 alphabet and none of which is the padding character
`=` (byte 61). -/
theorem MarshalText_total (T : Token) :
    (MarshalText T).2 = none ∧ (MarshalText T).1.length = 86 ∧
      ∀ c ∈ (MarshalText T).1, isURLSafe c ∧ c ≠ 61 := by
  refine ⟨rfl, ?_, ?_⟩
  · rw [MarshalText_fst, Encode_length, T.property]
    rfl
  · intro c hc
    rw [MarshalText_fst] at hc
    have hs := Encode_safe T.val c hc
    refine ⟨hs, ?_⟩
    intro h61
    rw [h61] at hs
    exact absurd hs (by decide)

/-- C9: `IncrementSpamScore` is additive and order-independent. With the
captcha feature on, incrementing by `a` then by `b` gives the same state as
incrementing by `b` then by `a`, and the same as one increment by `a + b`
(also when the sum is taken in `uint`, modulo `2 ^ 64`); increments of 40 ms
and 60 ms on a token without a buffer entry leave 100 ms buffered. -/
theorem IncrementSpamScore_additive (env : Env) (s : State) (user : Token) (a b : Nat)
    (hc : env.captcha = true) :
    IncrementSpamScore env (IncrementSpamScore env s user a) user b =
        IncrementSpamScore env (IncrementSpamScore env s user b) user a ∧
    IncrementSpamScore env (IncrementSpamScore env s user a) user b =
        IncrementSpamScore env s user (a + b) ∧
    IncrementSpamScore env (IncrementSpamScore env s user a) user b =
        IncrementSpamScore env s user ((a + b) % 2 ^ 64) ∧
    (s.spamScoreBuffer.lookup user = none →
      (IncrementSpamScore env (IncrementSpamScore env s user 40) user 60).spamScoreBuffer.lookup
        user = some 100000000) := by
  refine ⟨?_, IncrementSpamScore_twice env s user a b hc, ?_, ?_⟩
  · rw [IncrementSpamScore_twice env s user a b hc, IncrementSpamScore_twice env s user b a hc,
      Nat.add_comm]
  · rw [IncrementSpamScore_twice env s user a b hc, IncrementSpamScore_mod env s user _ hc]
  · intro hnone
    rw [IncrementSpamScore_twice env s user 40 60 hc, IncrementSpamScore_on env s user _ hc]
    simp only [AList.lookup_insert, Buffer.get, hnone, Option.getD_none]
    decide

/-- Witness of C9: increments of 40 ms and 60 ms for `tokenB` in `stateA`. -/
theorem IncrementSpamScore_additive_witness :
    envOk.captcha = true ∧
    IncrementSpamScore envOk (IncrementSpamScore envOk stateA tokenB 40) tokenB 60 =
        IncrementSpamScore envOk (IncrementSpamScore envOk stateA tokenB 60) tokenB 40 ∧
    IncrementSpamScore envOk (IncrementSpamScore envOk stateA tokenB 40) tokenB 60 =
        IncrementSpamScore envOk stateA tokenB (40 + 60) ∧
    IncrementSpamScore envOk (IncrementSpamScore envOk stateA tokenB 40) tokenB 60 =
        IncrementSpamScore envOk stateA tokenB ((40 + 60) % 2 ^ 64) ∧
    (stateA.spamScoreBuffer.lookup tokenB = none →
      (IncrementSpamScore envOk (IncrementSpamScore envOk stateA tokenB 40) tokenB
        60).spamScoreBuffer.lookup tokenB = some 100000000) :=
  ⟨rfl, IncrementSpamScore_additive envOk stateA tokenB 40 60 rfl⟩

/-- C10, as the code has it: with the captcha feature on, after a call of
`ValidateCaptcha` that returns no error, `NeedCaptcha` evaluated for the same
token at the same instant, when neither of its two queries fails, returns
false with no error. -/
theorem NeedCaptcha_after_ValidateCaptcha (env env2 : Env) (s : State) (req : Captcha)
    (user : Token) (hc : env.captcha = true)
    (hok : (ValidateCaptcha env s req user).2 = none)
    (hc2 : env2.captcha = true) (hnow : env2.now = env.now)
    (hq1 : env2.solvedQueryErr = none) (hq2 : env2.scoreQueryErr = none) :
    NeedCaptcha env2 (ValidateCaptcha env s req user).1 user = (false, none) := by
  have heq := ValidateCaptcha_ok env s req user hc hok
  rw [heq] at hok ⊢
  have hdb := recordValidCaptcha_ok env s user hok
  have hsolved : (recordValidCaptcha env s user).1.db.last_solved_captchas.lookup user =
      some (env.now + threeHours) := by
    rw [hdb]; exact AList.lookup_insert _
  have hscore : (recordValidCaptcha env s user).1.db.spam_scores.lookup user = none := by
    rw [hdb]; exact AList.lookup_erase _ _
  have h3 : env.now + threeHours > env.now := Int.lt_add_of_pos_right _ (by decide)
  unfold NeedCaptcha SolvedCaptchaRecently getSpamScore queryScore
  simp only [hc2, hq1, hq2, hsolved, hscore, hnow, h3, Bool.not_true, Bool.false_eq_true,
    if_false, decide_True]
  simp [Time.After, Time.Add, spamDetectionThreshold, Minute]

/-- Witness of C10 as amended: `tokenA` in `stateSolved`. -/
theorem NeedCaptcha_after_ValidateCaptcha_witness :
    envOk.captcha = true ∧
    (ValidateCaptcha envOk stateSolved ⟨[], []⟩ tokenA).2 = none ∧
    envOk.now = envOk.now ∧ envOk.solvedQueryErr = none ∧ envOk.scoreQueryErr = none ∧
    NeedCaptcha envOk (ValidateCaptcha envOk stateSolved ⟨[], []⟩ tokenA).1 tokenA =
      (false, none) :=
  ⟨rfl, rfl, rfl, rfl, rfl,
    NeedCaptcha_after_ValidateCaptcha envOk envOk stateSolved ⟨[], []⟩ tokenA rfl rfl rfl rfl
      rfl rfl⟩

/-- Counterexample to C10 as stated: `ValidateCaptcha` succeeds, the query of
`SolvedCaptchaRecently` then fails, and `NeedCaptcha` returns that error. -/
theorem NeedCaptcha_after_ValidateCaptcha_counterexample :
    envQueryFail.captcha = true ∧
    (ValidateCaptcha envQueryFail stateA ⟨[], []⟩ tokenA).2 = none ∧
    NeedCaptcha envQueryFail (ValidateCaptcha envQueryFail stateA ⟨[], []⟩ tokenA).1 tokenA =
      (false, some (.other 2)) ∧
    NeedCaptcha envQueryFail (ValidateCaptcha envQueryFail stateA ⟨[], []⟩ tokenA).1 tokenA ≠
      (false, none) := by
  refine ⟨rfl, rfl, rfl, ?_⟩
  intro h
  have h2 : NeedCaptcha envQueryFail (ValidateCaptcha envQueryFail stateA ⟨[], []⟩ tokenA).1
      tokenA = (false, some (.other 2)) := rfl
  rw [h2] at h
  cases h

/-- C11: the feature flag off disables the subsystem. When the captcha flag of
the configuration is false, `IncrementSpamScore` leaves the state (so the
buffer) as it is, `NeedCaptcha` returns false and no error, `ValidateCaptcha`
returns no error and leaves the state as it is, whatever the backend would
answer, and `SolvedCaptchaRecently` returns true and no error. -/
theorem captcha_disabled (env : Env) (s : State) (user : Token) (increment : Nat)
    (req : Captcha) (hc : env.captcha = false) :
    IncrementSpamScore env s user increment = s ∧
    NeedCaptcha env s user = (false, none) ∧
    ValidateCaptcha env s req user = (s, none) ∧
    SolvedCaptchaRecently env s user = (true, none) := by
  refine ⟨?_, ?_, ?_, ?_⟩
  · unfold IncrementSpamScore; simp [hc]
  · unfold NeedCaptcha; simp [hc]
  · unfold ValidateCaptcha; simp [hc]
  · unfold SolvedCaptchaRecently; simp [hc]

/-- Witness of C11: `envOff`, in which the backend would reject the
solution. -/
theorem captcha_disabled_witness :
    envOff.captcha = false ∧
    IncrementSpamScore envOff stateA tokenA 100 = stateA ∧
    NeedCaptcha envOff stateA tokenA = (false, none) ∧
    ValidateCaptcha envOff stateA captchaReq tokenA = (stateA, none) ∧
    SolvedCaptchaRecently envOff stateA tokenA = (true, none) :=
  ⟨rfl, captcha_disabled envOff stateA tokenA 100 captchaReq rfl⟩

/-- C12: `ExtractToken` strips the literal `Bearer ` once from the start of
the `Authorization` header if it is there, and decodes the rest. It returns
the token `T` exactly when `UnmarshalText` of the rest returns `T`, and
otherwise the `StatusError` with code 403 and message
`invalid authentication key`, also for an empty or missing header. For every
token, its text with and without `Bearer ` in front yields the token. -/
theorem ExtractToken_decodes (r : Request) (T : Token) :
    (ExtractToken r = .ok T ↔
      UnmarshalText (TrimPrefix (r.Header "Authorization") (bytes "Bearer ")) = .ok T) ∧
    (ExtractToken r = .error (.StatusError 403 "invalid authentication key") ↔
      ¬ ∃ T2, UnmarshalText (TrimPrefix (r.Header "Authorization") (bytes "Bearer ")) =
        .ok T2) ∧
    ((∃ T2, ExtractToken r = .ok T2) ∨
      ExtractToken r = .error (.StatusError 403 "invalid authentication key")) ∧
    ((∃ rest, r.Header "Authorization" = bytes "Bearer " ++ rest ∧
        TrimPrefix (r.Header "Authorization") (bytes "Bearer ") = rest) ∨
      (¬ List.IsPrefix (bytes "Bearer ") (r.Header "Authorization") ∧
        TrimPrefix (r.Header "Authorization") (bytes "Bearer ") = r.Header "Authorization")) ∧
    ExtractToken (r.withHeader "Authorization" (bytes "Bearer " ++ (MarshalText T).1)) = .ok T ∧
    ExtractToken (r.withHeader "Authorization" (MarshalText T).1) = .ok T ∧
    ExtractToken (r.withHeader "Authorization" []) =
      .error (.StatusError 403 "invalid authentication key") := by
  have hround : UnmarshalText (MarshalText T).1 = .ok T := by
    have hlen : (Encode T.val).length = 86 := by rw [Encode_length, T.property]; rfl
    rw [MarshalText_fst]
    refine UnmarshalText_of_Decode _ T hlen ?_
    simpa [Decode] using decodeLoop_Encode T.val []
  refine ⟨?_, ?_, ?_, ?_, ?_, ?_, ?_⟩
  · rw [ExtractToken_eq]
    cases h : UnmarshalText (TrimPrefix (r.Header "Authorization") (bytes "Bearer ")) with
    | ok u => simp
    | error e => simp
  · rw [ExtractToken_eq]
    cases h : UnmarshalText (TrimPrefix (r.Header "Authorization") (bytes "Bearer ")) with
    | ok u => simp
    | error e => simp
  · rw [ExtractToken_eq]
    cases h : UnmarshalText (TrimPrefix (r.Header "Authorization") (bytes "Bearer ")) with
    | ok u => exact Or.inl ⟨u, rfl⟩
    | error e => exact Or.inr rfl
  · by_cases hp : List.IsPrefix (bytes "Bearer ") (r.Header "Authorization")
    · obtain ⟨rest, hrest⟩ := hp
      left
      refine ⟨rest, hrest.symm, ?_⟩
      rw [← hrest, TrimPrefix_append]
    · exact Or.inr ⟨hp, TrimPrefix_of_not _ _ hp⟩
  · rw [ExtractToken_eq, withHeader_get, TrimPrefix_append, hround]
  · rw [ExtractToken_eq, withHeader_get,
      TrimPrefix_of_not _ _ (not_bearer_of_safe _ (by rw [MarshalText_fst]; exact Encode_safe _)),
      hround]
  · rfl

/-- C13, as the code has it: with the reverse proxy trusted and a non-empty
`X-Forwarded-For` header, the candidate is the text after the last comma of
the header (all of it without a comma), trimmed of white space; when this
candidate is not empty, `GetIP` resolves it (port stripped, then parsed) and
the result does not depend on `RemoteAddr`; when it is empty, `GetIP` resolves
`RemoteAddr` instead. The header `9.9.9.9, 1.1.1.1` resolves to `1.1.1.1`. -/
theorem GetIP_trusted (parseIPv6 : List Byte → Option IP) (r : Request) (addr : List Byte)
    (hh : r.Header "X-Forwarded-For" ≠ []) :
    GetIP parseIPv6 true r =
      resolveAddr parseIPv6
        (if TrimSpace (afterLastComma (r.Header "X-Forwarded-For")) = [] then r.RemoteAddr
          else TrimSpace (afterLastComma (r.Header "X-Forwarded-For"))) ∧
    (TrimSpace (afterLastComma (r.Header "X-Forwarded-For")) = [] ∨
      GetIP parseIPv6 true { r with RemoteAddr := addr } = GetIP parseIPv6 true r) ∧
    ((44 : Byte) ∉ afterLastComma (r.Header "X-Forwarded-For") ∧
      (afterLastComma (r.Header "X-Forwarded-For") = r.Header "X-Forwarded-For" ∨
        ∃ pre, r.Header "X-Forwarded-For" =
          pre ++ 44 :: afterLastComma (r.Header "X-Forwarded-For"))) ∧
    (List.IsInfix (TrimSpace (afterLastComma (r.Header "X-Forwarded-For")))
        (afterLastComma (r.Header "X-Forwarded-For")) ∧
      (∀ w ∈ spaceRunes,
        ¬ List.IsPrefix w (TrimSpace (afterLastComma (r.Header "X-Forwarded-For")))) ∧
      (∀ w ∈ spaceRunes,
        ¬ List.IsSuffix w (TrimSpace (afterLastComma (r.Header "X-Forwarded-For"))))) ∧
    GetIP parseIPv6 true (r.withHeader "X-Forwarded-For" (bytes "9.9.9.9, 1.1.1.1")) =
      (some (IPv4 1 1 1 1), none) := by
  refine ⟨GetIP_proxied parseIPv6 r hh, ?_, afterLastComma_spec _, TrimSpace_spec _, ?_⟩
  · by_cases he : TrimSpace (afterLastComma (r.Header "X-Forwarded-For")) = []
    · exact Or.inl he
    · right
      have h2 := GetIP_proxied parseIPv6 { r with RemoteAddr := addr } hh
      rw [GetIP_proxied parseIPv6 r hh, h2]
      simp only [if_neg he]
  · rw [GetIP_proxied _ _ (by rw [withHeader_get]; decide), withHeader_get, trim_example,
      if_neg (by decide), resolve_example]

/-- Witness of C13 as amended: the header `9.9.9.9, 1.1.1.1` on `requestA`. -/
theorem GetIP_trusted_witness :
    (requestA.withHeader "X-Forwarded-For" (bytes "9.9.9.9, 1.1.1.1")).Header "X-Forwarded-For" ≠
      [] ∧
    GetIP (fun _ => none) true (requestA.withHeader "X-Forwarded-For" (bytes "9.9.9.9, 1.1.1.1")) =
      (some (IPv4 1 1 1 1), none) :=
  ⟨by decide,
    (GetIP_trusted (fun _ => none)
      (requestA.withHeader "X-Forwarded-For" (bytes "9.9.9.9, 1.1.1.1")) [] (by decide)).1.trans
      (by decide)⟩

/-- Counterexample to C13 as stated: the header `9.9.9.9, 1.1.1.1,` ends in a
comma, so the text after the last comma is empty and `GetIP` falls back to
`RemoteAddr`: two requests with this header and different `RemoteAddr` resolve
to different addresses, and neither result is that of the empty candidate. -/
theorem GetIP_trusted_counterexample :
    (requestA.withHeader "X-Forwarded-For" (bytes "9.9.9.9, 1.1.1.1,")).Header "X-Forwarded-For" ≠
      [] ∧
    (requestA.withHeader "X-Forwarded-For" (bytes "9.9.9.9, 1.1.1.1,")).Header "X-Forwarded-For" =
      (requestB.withHeader "X-Forwarded-For" (bytes "9.9.9.9, 1.1.1.1,")).Header
        "X-Forwarded-For" ∧
    GetIP (fun _ => none) true
        (requestA.withHeader "X-Forwarded-For" (bytes "9.9.9.9, 1.1.1.1,")) =
      (some (IPv4 1 2 3 4), none) ∧
    GetIP (fun _ => none) true
        (requestB.withHeader "X-Forwarded-For" (bytes "9.9.9.9, 1.1.1.1,")) =
      (some (IPv4 5 6 7 8), none) ∧
    GetIP (fun _ => none) true
        (requestA.withHeader "X-Forwarded-For" (bytes "9.9.9.9, 1.1.1.1,")) ≠
      GetIP (fun _ => none) true
        (requestB.withHeader "X-Forwarded-For" (bytes "9.9.9.9, 1.1.1.1,")) ∧
    GetIP (fun _ => none) true
        (requestA.withHeader "X-Forwarded-For" (bytes "9.9.9.9, 1.1.1.1,")) ≠
      resolveAddr (fun _ => none)
        (TrimSpace (afterLastComma (bytes "9.9.9.9, 1.1.1.1,"))) := by
  decide

/-- C14: without trust in the reverse proxy, the result of `GetIP` is decided
by `RemoteAddr` alone, whatever the headers are: the address is the parse of
`RemoteAddr` without its port (the host when `RemoteAddr` is a host:port pair,
`RemoteAddr` itself otherwise), and there is an error exactly when that text
does not parse. `1.2.3.4:5555` resolves to `1.2.3.4`. -/
theorem GetIP_untrusted (parseIPv6 : List Byte → Option IP) (r : Request)
    (hdr : String → List Byte) :
    GetIP parseIPv6 false r =
      GetIP parseIPv6 false { Header := hdr, RemoteAddr := r.RemoteAddr } ∧
    (GetIP parseIPv6 false r).1 = ParseIP parseIPv6 (stripPort r.RemoteAddr) ∧
    ((GetIP parseIPv6 false r).2 = none ↔
      ∃ ip, ParseIP parseIPv6 (stripPort r.RemoteAddr) = some ip) ∧
    ((GetIP parseIPv6 false r).2 = some (.invalidIP (stripPort r.RemoteAddr)) ↔
      ParseIP parseIPv6 (stripPort r.RemoteAddr) = none) ∧
    ((∃ host port, SplitHostPort r.RemoteAddr = .ok (host, port) ∧
        stripPort r.RemoteAddr = host) ∨
      ((∀ hp, SplitHostPort r.RemoteAddr ≠ .ok hp) ∧ stripPort r.RemoteAddr = r.RemoteAddr)) ∧
    GetIP parseIPv6 false { Header := hdr, RemoteAddr := bytes "1.2.3.4:5555" } =
      (some (IPv4 1 2 3 4), none) := by
  refine ⟨?_, ?_, ?_, ?_, stripPort_spec _, ?_⟩
  · rw [GetIP_direct, GetIP_direct]
  · rw [GetIP_direct]; exact resolveAddr_fst _ _
  · rw [GetIP_direct]; exact (resolveAddr_snd _ _).1
  · rw [GetIP_direct]; exact (resolveAddr_snd _ _).2
  · rw [GetIP_direct]; exact resolve_example2 _

/-- C15: error mapping of `ValidateCaptcha`. With the captcha feature on, when
the backend returns the error `e`, `ValidateCaptcha` returns
`ErrInvalidCaptcha` if `e` is `ErrInvalidSolution` and `e` itself otherwise,
and the state (buffer and both tables) is as before. -/
theorem ValidateCaptcha_backend_error (env : Env) (s : State) (req : Captcha) (user : Token)
    (e : Error) (hc : env.captcha = true) (hb : env.checkCaptcha req = some e) :
    ValidateCaptcha env s req user =
      (s, some (if e = .ErrInvalidSolution then .ErrInvalidCaptcha else e)) := by
  unfold ValidateCaptcha
  simp only [hc, hb, Bool.not_true, Bool.false_eq_true, if_false]
  cases e <;> simp

/-- Witness of C15: a backend that fails with an error of its own. -/
theorem ValidateCaptcha_backend_error_witness :
    envBackendDown.captcha = true ∧ envBackendDown.checkCaptcha captchaReq = some (.other 3) ∧
    ValidateCaptcha envBackendDown stateA captchaReq tokenA =
      (stateA, some (if Error.other 3 = .ErrInvalidSolution then .ErrInvalidCaptcha
        else .other 3)) :=
  ⟨rfl, rfl, ValidateCaptcha_backend_error envBackendDown stateA captchaReq tokenA (.other 3) rfl rfl⟩

/-- C16: `AssertNotSpammer` is error-only. It returns the error `e` exactly
when the score query fails with `e` and `e` is not `ErrNoRows`; when the driver
does not fail it returns nil for every token and state, so for a token without
row and buffer entry and for a score however large. -/
theorem AssertNotSpammer_error_only (env : Env) (s : State) (user : Token) (e : Error) :
    (AssertNotSpammer env s user = some e ↔
      (queryScore env s user = .error e ∧ e ≠ .ErrNoRows)) ∧
    AssertNotSpammer { env with scoreQueryErr := none } s user = none := by
  constructor
  · unfold AssertNotSpammer
    rw [getSpamScore_eq]
    cases hq : queryScore env s user with
    | ok score => simp
    | error e1 =>
      cases e1 <;> simp <;> rintro rfl <;> simp
  · unfold AssertNotSpammer getSpamScore queryScore
    simp only
    cases s.db.spam_scores.lookup user with
    | none => rfl
    | some x =>
      by_cases hx : x > env.now
      · simp [hx]
      · simp [hx]

/-- C17, as the code has it: with the captcha feature on, when the sum of the
buffered duration `d` and `n` times 1000000 ns lies in the range of `int64`,
`IncrementSpamScore` changes the buffered duration to exactly that sum, which
is not below `d`. -/
theorem IncrementSpamScore_exact (env : Env) (s : State) (user : Token) (n : Nat)
    (hc : env.captcha = true)
    (hlo : -2 ^ 63 ≤ s.spamScoreBuffer.get user + (n : Int) * 1000000)
    (hhi : s.spamScoreBuffer.get user + (n : Int) * 1000000 < 2 ^ 63) :
    (IncrementSpamScore env s user n).spamScoreBuffer.get user =
        s.spamScoreBuffer.get user + (n : Int) * 1000000 ∧
      s.spamScoreBuffer.get user ≤ (IncrementSpamScore env s user n).spamScoreBuffer.get user := by
  have hexact : (IncrementSpamScore env s user n).spamScoreBuffer.get user =
      s.spamScoreBuffer.get user + (n : Int) * 1000000 := by
    rw [IncrementSpamScore_on env s user n hc]
    simp only [Buffer.get_insert]
    rw [wrapInt64_congr ((Int.ModEq.refl _).add (increment_modEq n))]
    exact wrapInt64_of_range _ hlo hhi
  refine ⟨hexact, ?_⟩
  rw [hexact]
  have hn : (0 : Int) ≤ (n : Int) * 1000000 := by positivity
  exact le_add_of_nonneg_right hn

/-- Witness of C17 as amended: 40 ms more for `tokenA` in `stateA`. -/
theorem IncrementSpamScore_exact_witness :
    envOk.captcha = true ∧
    -2 ^ 63 ≤ stateA.spamScoreBuffer.get tokenA + ((40 : Nat) : Int) * 1000000 ∧
    stateA.spamScoreBuffer.get tokenA + ((40 : Nat) : Int) * 1000000 < 2 ^ 63 ∧
    (IncrementSpamScore envOk stateA tokenA 40).spamScoreBuffer.get tokenA =
      stateA.spamScoreBuffer.get tokenA + ((40 : Nat) : Int) * 1000000 ∧
    stateA.spamScoreBuffer.get tokenA ≤
      (IncrementSpamScore envOk stateA tokenA 40).spamScoreBuffer.get tokenA :=
  ⟨rfl, by decide, by decide, IncrementSpamScore_exact envOk stateA tokenA 40 rfl (by decide) (by decide)⟩

/-- Counterexample to C17 as stated: the increment 9223372036855 is a `uint`,
its product with 1000000 is beyond the range of `int64` and wraps around, and
the buffered duration of `tokenA` falls from 100 ms to a negative value. -/
theorem IncrementSpamScore_exact_counterexample :
    envOk.captcha = true ∧ 9223372036855 < 2 ^ 64 ∧
    stateA.spamScoreBuffer.get tokenA = 100000000 ∧
    (IncrementSpamScore envOk stateA tokenA 9223372036855).spamScoreBuffer.get tokenA =
      -9223372036754551616 ∧
    (IncrementSpamScore envOk stateA tokenA 9223372036855).spamScoreBuffer.get tokenA ≠
      stateA.spamScoreBuffer.get tokenA + 9223372036855 * 1000000 ∧
    (IncrementSpamScore envOk stateA tokenA 9223372036855).spamScoreBuffer.get tokenA <
      stateA.spamScoreBuffer.get tokenA := by
  have h : (IncrementSpamScore envOk stateA tokenA 9223372036855).spamScoreBuffer.get tokenA =
      -9223372036754551616 := by rfl
  have h0 : stateA.spamScoreBuffer.get tokenA = 100000000 := rfl
  refine ⟨rfl, by decide, h0, h, ?_, ?_⟩
  · rw [h, h0]; decide
  · rw [h, h0]; decide

/-- C18, as the code has it: for a text `s` that `UnmarshalText` accepts,
yielding `T`, the text of `T` agrees with `s` on the first 85 bytes, and it is
`s` exactly when the sextet of the last character of `s` has its four low bits
zero (the decoder drops these bits); the text of `T` decodes to `T` again. -/
theorem MarshalText_after_UnmarshalText (s : List Byte) (T : Token)
    (h : UnmarshalText s = .ok T) :
    (MarshalText T).1.take 85 = s.take 85 ∧
    ((MarshalText T).1 = s ↔ decodeMap (s.getD 85 0) % 16 = 0) ∧
    UnmarshalText (MarshalText T).1 = .ok T := by
  obtain ⟨hlen, hs, hm⟩ := MarshalText_of_accepted s T h
  have htake : (s.take 85).length = 85 := by rw [List.length_take, hlen]; rfl
  have hsplit : s = s.take 85 ++ [s.getD 85 0] := by
    have h1 := (List.take_append_drop 85 s).symm
    have h2 : s.drop 85 = [s.getD 85 0] := by
      rw [List.drop_eq_getElem_cons (by rw [hlen]; norm_num)]
      have h3 : s.drop 86 = [] := List.drop_eq_nil_of_le (by rw [hlen])
      rw [h3, List.getD_eq_getElem _ _ (by rw [hlen]; norm_num)]
    rw [h2] at h1
    exact h1
  have hlast : isURLSafe (s.getD 85 0) := by
    apply hs
    rw [List.getD_eq_getElem s 0 (by rw [hlen]; norm_num)]
    apply List.getElem_mem
  have hlt := decodeMap_lt_of_safe _ hlast
  refine ⟨?_, ?_, ?_⟩
  · rw [hm, List.take_left' htake]
  · rw [hm]
    constructor
    · intro heq
      have h1 : s.take 85 ++ [encodeChar (decodeMap (s.getD 85 0) / 16 * 16)] =
          s.take 85 ++ [s.getD 85 0] := heq.trans hsplit
      have h2 := List.append_cancel_left h1
      simp only [List.cons.injEq, and_true] at h2
      have h3 := congrArg decodeMap h2
      have h4 := decodeMap_encodeChar ⟨decodeMap (s.getD 85 0) / 16 * 16, by omega⟩
      simp only at h4
      rw [h4] at h3
      omega
    · intro hmod
      have h1 : decodeMap (s.getD 85 0) / 16 * 16 = decodeMap (s.getD 85 0) := by omega
      rw [h1, encodeChar_decodeMap _ hlast]
      exact hsplit.symm
  · have hlen2 : (Encode T.val).length = 86 := by rw [Encode_length, T.property]; rfl
    rw [MarshalText_fst]
    refine UnmarshalText_of_Decode _ T hlen2 ?_
    simpa [Decode] using decodeLoop_Encode T.val []

/-- Witness of C18 as amended: the text `textA`. -/
theorem MarshalText_after_UnmarshalText_witness :
    UnmarshalText textA = .ok tokenA ∧
    (MarshalText tokenA).1.take 85 = textA.take 85 ∧
    ((MarshalText tokenA).1 = textA ↔ decodeMap (textA.getD 85 0) % 16 = 0) ∧
    UnmarshalText (MarshalText tokenA).1 = .ok tokenA :=
  ⟨UnmarshalText_textA, MarshalText_after_UnmarshalText textA tokenA UnmarshalText_textA⟩

set_option maxRecDepth 100000 in
/-- Counterexample to C18 as stated: `textB` is accepted and yields `tokenA`,
whose text is not `textB`; `textA` is another text that yields `tokenA`. -/
theorem UnmarshalText_not_injective_counterexample :
    UnmarshalText textB = .ok tokenA ∧ (MarshalText tokenA).1 ≠ textB ∧
    UnmarshalText textA = .ok tokenA ∧ textA ≠ textB := by
  refine ⟨UnmarshalText_textB, ?_, UnmarshalText_textA, by decide⟩
  rw [MarshalText_tokenA]
  decide

/-- C19: recording a solve touches only the solving token. For every other
token, `recordValidCaptcha` leaves the buffered penalty, the row in
`spam_scores` and the row in `last_solved_captchas` as they were, whether or
not the transaction commits. -/
theorem recordValidCaptcha_frame (env : Env) (s : State) (user other : Token)
    (hne : other ≠ user) :
    (recordValidCaptcha env s user).1.spamScoreBuffer.lookup other =
        s.spamScoreBuffer.lookup other ∧
    (recordValidCaptcha env s user).1.db.spam_scores.lookup other =
        s.db.spam_scores.lookup other ∧
    (recordValidCaptcha env s user).1.db.last_solved_captchas.lookup other =
        s.db.last_solved_captchas.lookup other := by
  refine ⟨?_, ?_⟩
  · rw [recordValidCaptcha_buffer]
    exact AList.lookup_erase_ne hne
  · cases hr : (recordValidCaptcha env s user).2 with
    | some e =>
      have hdb : (recordValidCaptcha env s user).1.db = s.db :=
        InTransaction_error env _ s.db e hr
      rw [hdb]
      exact ⟨rfl, rfl⟩
    | none =>
      rw [recordValidCaptcha_ok env s user hr]
      exact ⟨AList.lookup_erase_ne hne, AList.lookup_insert_ne hne⟩

/-- Witness of C19: `tokenB` while `tokenA` records a solve in `stateAB`. -/
theorem recordValidCaptcha_frame_witness :
    tokenB ≠ tokenA ∧
    (recordValidCaptcha envOk stateAB tokenA).1.spamScoreBuffer.lookup tokenB =
        stateAB.spamScoreBuffer.lookup tokenB ∧
    (recordValidCaptcha envOk stateAB tokenA).1.db.spam_scores.lookup tokenB =
        stateAB.db.spam_scores.lookup tokenB ∧
    (recordValidCaptcha envOk stateAB tokenA).1.db.last_solved_captchas.lookup tokenB =
        stateAB.db.last_solved_captchas.lookup tokenB :=
  ⟨by decide, recordValidCaptcha_frame envOk stateAB tokenA tokenB (by decide)⟩

end Meguca
